import Mathlib

/-!
# Verification of the white-shark market-data pipeline

Shallow embedding of the core of the `white-shark` repository (a Rust
real-time market-data ingestion and imbalance-signal pipeline) together
with proofs about its order-book maintenance, imbalance detection,
alert gating and SBE binary decoding.

Modelling conventions:
* Rust `f64` prices/quantities are modelled as exact rationals `ℚ`;
  the source only ever produces these values by decimal parsing,
  subtraction from `1.0`, and mantissa-times-power-of-ten scaling,
  and every claim below concerns the algebraic structure of those
  computations, not floating-point rounding.
* Rust `i64` quantities are modelled as `ℤ` with explicit saturation
  bounds (`i64Min`, `i64Max`) exactly where the source saturates.
* Byte buffers are modelled as `List ℕ` (each entry a byte value);
  multibyte reads are little-endian, as in the source.
* Fallible decoding is modelled with `Option`.
* Wall-clock instants are modelled as rationals (seconds).
-/

namespace WhiteShark

/-! ## Order-book data model (`src/exchanges/kalshi/models.rs`) -/

/-- Model of `OrderbookLevel { price: f64, quantity: i64 }`. -/
structure OrderbookLevel where
  price : ℚ
  quantity : ℤ
deriving Repr, DecidableEq

/-- Model of `KalshiOrderbook`: four per-side level sequences. -/
structure KalshiOrderbook where
  market_ticker : String
  yes_bids : List OrderbookLevel
  yes_asks : List OrderbookLevel
  no_bids : List OrderbookLevel
  no_asks : List OrderbookLevel
deriving Repr, DecidableEq

/-- Model of `KalshiOrderbookDelta`: one incremental book change.  The source
carries the price as the string `price_dollars` and parses it with
`str::parse::<f64>`; we model the parse result directly
(`none` when the string does not parse). -/
structure KalshiOrderbookDelta where
  market_ticker : String
  price_parse : Option ℚ
  delta : ℤ
  side : String
deriving Repr, DecidableEq

/-- The value `i64::MIN`. -/
def i64Min : ℤ := -(2 ^ 63)

/-- The value `i64::MAX`. -/
def i64Max : ℤ := 2 ^ 63 - 1

/-- Model of `i64::saturating_add` on in-range operands. -/
def saturatingAdd (a b : ℤ) : ℤ := max i64Min (min i64Max (a + b))

/-- The price-matching tolerance `1e-12` used by
`(l.price - price).abs() < 1e-12`. -/
def priceEps : ℚ := 1 / 10 ^ 12

/-- One matching step of the level-matching predicate
`(l.price - price).abs() < 1e-12`. -/
def priceMatches (l : OrderbookLevel) (price : ℚ) : Bool :=
  |l.price - price| < priceEps

/-- The shared delta-application loop of
`event_processor.rs::handle_orderbook_delta` (lines 400–412) and
`kalshi/client.rs::KalshiClient::process_orderbook_delta`
(lines 382–394): find the first level whose price matches within
`1e-12`; if found, saturating-add the delta and remove the level when
the new quantity is `≤ 0`; otherwise push a new level at the end when
the delta is positive. -/
def applyDeltaToLevels : List OrderbookLevel → ℚ → ℤ → List OrderbookLevel
  | [], price, d => if 0 < d then [⟨price, d⟩] else []
  | l :: rest, price, d =>
    if priceMatches l price then
      let newQty := saturatingAdd l.quantity d
      if newQty ≤ 0 then rest else { l with quantity := newQty } :: rest
    else
      l :: applyDeltaToLevels rest price d

/-- Descending-by-price stable sort:
`sort_by(|a, b| b.price.partial_cmp(&a.price) …)`. -/
def sortBidsDesc (ls : List OrderbookLevel) : List OrderbookLevel :=
  ls.mergeSort (fun a b => b.price ≤ a.price)

/-- Ascending-by-price stable sort:
`sort_by(|a, b| a.price.partial_cmp(&b.price) …)`. -/
def sortAsksAsc (ls : List OrderbookLevel) : List OrderbookLevel :=
  ls.mergeSort (fun a b => a.price ≤ b.price)

/-- Model of Rust `str::to_lowercase` (character-wise lowercasing; the
source only applies it to the ASCII side tags `"yes"` / `"no"`). -/
def rustToLowercase (s : String) : String := ⟨s.data.map Char.toLower⟩

/-! ## Event-processor book mutations (`src/event_processor.rs`) -/

/-- Derived-ask refresh of `event_processor.rs` (lines 345–352 and
423–436): clear both ask sides, then push the single level
`1.0 − best opposite bid` (quantity 0) for each non-empty bid side. -/
def epRefreshDerivedAsks (ob : KalshiOrderbook) : KalshiOrderbook :=
  let yes_asks := match ob.no_bids.head? with
    | some l => [OrderbookLevel.mk (1 - l.price) 0]
    | none => []
  let no_asks := match ob.yes_bids.head? with
    | some l => [OrderbookLevel.mk (1 - l.price) 0]
    | none => []
  { ob with yes_asks := yes_asks, no_asks := no_asks }

/-- Book-level part of `event_processor.rs::handle_orderbook_update`
(lines 329–352): overwrite both bid sides from the snapshot, sort them
descending, and refresh the derived asks. -/
def epApplySnapshot (existing : KalshiOrderbook) (ob : KalshiOrderbook) :
    KalshiOrderbook :=
  let b := { existing with
    yes_bids := sortBidsDesc ob.yes_bids
    no_bids := sortBidsDesc ob.no_bids }
  epRefreshDerivedAsks b

/-- Book-level part of `event_processor.rs::handle_orderbook_delta`
(lines 396–436): apply the delta to the side selected by
`side.to_lowercase() == "yes"`, re-sort both bid sides descending, and
refresh the derived asks. -/
def epApplyDelta (existing : KalshiOrderbook) (side : String) (price : ℚ)
    (d : ℤ) : KalshiOrderbook :=
  let b :=
    if rustToLowercase side = "yes" then
      { existing with yes_bids := applyDeltaToLevels existing.yes_bids price d }
    else
      { existing with no_bids := applyDeltaToLevels existing.no_bids price d }
  let b := { b with
    yes_bids := sortBidsDesc b.yes_bids
    no_bids := sortBidsDesc b.no_bids }
  epRefreshDerivedAsks b

/-! ## Kalshi-client book mutations (`src/exchanges/kalshi/client.rs`) -/

/-- Model of `KalshiClient::derive_asks_from_bids` (lines 278–300): every YES
ask is `1.0 − NO bid` and every NO ask is `1.0 − YES bid`, one derived
level per opposing bid, carrying the opposing bid's quantity. -/
def deriveAsksFromBids (ob : KalshiOrderbook) : KalshiOrderbook :=
  { ob with
    yes_asks := ob.no_bids.map (fun l => OrderbookLevel.mk (1 - l.price) l.quantity)
    no_asks := ob.yes_bids.map (fun l => OrderbookLevel.mk (1 - l.price) l.quantity) }

/-- Model of `KalshiClient::sort_orderbook` (lines 303–311): bids descending,
asks ascending. -/
def sortOrderbook (ob : KalshiOrderbook) : KalshiOrderbook :=
  { ob with
    yes_bids := sortBidsDesc ob.yes_bids
    no_bids := sortBidsDesc ob.no_bids
    yes_asks := sortAsksAsc ob.yes_asks
    no_asks := sortAsksAsc ob.no_asks }

/-- Book-level part of `KalshiClient::process_orderbook_update`
(lines 326–356): overwrite the bid sides from the snapshot, derive the
asks from the opposite bids, then sort. -/
def clientApplySnapshot (existing : KalshiOrderbook) (ob : KalshiOrderbook) :
    KalshiOrderbook :=
  let b := { existing with yes_bids := ob.yes_bids, no_bids := ob.no_bids }
  sortOrderbook (deriveAsksFromBids b)

/-- Book-level part of `KalshiClient::process_orderbook_delta`
(lines 358–401): apply the delta to the selected bid side, then sort,
derive asks, and sort again. -/
def clientApplyDelta (existing : KalshiOrderbook) (side : String) (price : ℚ)
    (d : ℤ) : KalshiOrderbook :=
  let b :=
    if rustToLowercase side = "yes" then
      { existing with yes_bids := applyDeltaToLevels existing.yes_bids price d }
    else
      { existing with no_bids := applyDeltaToLevels existing.no_bids price d }
  sortOrderbook (deriveAsksFromBids (sortOrderbook b))

/-- An empty book for a ticker, as built by the `or_insert_with`
closures. -/
def emptyBook (ticker : String) : KalshiOrderbook :=
  ⟨ticker, [], [], [], []⟩

/-! ## Shared state (`src/state.rs`) and the event-processor store layer -/

/-- Model of `KalshiState` (`src/state.rs`): the tracked-markets map is
modelled by its key set, the `orderbooks` DashMap by an association
list. -/
structure KalshiState where
  tracked_markets : List String
  orderbooks : List (String × KalshiOrderbook)
deriving Repr, DecidableEq

/-- Map lookup (`DashMap::get` / `entry` probing). -/
def lookupBook (obs : List (String × KalshiOrderbook)) (t : String) :
    Option KalshiOrderbook :=
  (obs.find? (fun e => decide (e.1 = t))).map Prod.snd

/-- Map insert-or-replace (`DashMap::entry(…).or_insert_with(…)`
followed by in-place mutation of the entry). -/
def setBook (obs : List (String × KalshiOrderbook)) (t : String)
    (b : KalshiOrderbook) : List (String × KalshiOrderbook) :=
  (t, b) :: obs.filter (fun e => decide (e.1 ≠ t))

/-- Store-level `event_processor.rs::handle_orderbook_update`
(lines 318–369): skip untracked tickers entirely, otherwise apply the
snapshot to the existing (or fresh) book for the ticker. -/
def epHandleOrderbookUpdate (st : KalshiState) (ob : KalshiOrderbook) :
    KalshiState :=
  if st.tracked_markets.contains ob.market_ticker then
    let existing :=
      (lookupBook st.orderbooks ob.market_ticker).getD (emptyBook ob.market_ticker)
    { st with
      orderbooks := setBook st.orderbooks ob.market_ticker (epApplySnapshot existing ob) }
  else st

/-- Store-level `event_processor.rs::handle_orderbook_delta`
(lines 371–451): bail out when `price_dollars` does not parse, then
apply the delta to the existing (or fresh) book for the ticker —
without any tracked-markets check. -/
def epHandleOrderbookDelta (st : KalshiState) (delta : KalshiOrderbookDelta) :
    KalshiState :=
  match delta.price_parse with
  | none => st
  | some price =>
    let existing :=
      (lookupBook st.orderbooks delta.market_ticker).getD
        (emptyBook delta.market_ticker)
    { st with
      orderbooks := setBook st.orderbooks delta.market_ticker
        (epApplyDelta existing delta.side price delta.delta) }

/-! ## Imbalance-alert gating (`src/event_processor.rs::handle_imbalance_alert`) -/

/-- Model of `Instant::duration_since`, which saturates at zero for a
start instant in the future. -/
def durationSince (now start : ℚ) : ℚ := max (now - start) 0

/-- The active-monitor check of `handle_imbalance_alert`
(lines 93–98): some session started at most 15 seconds ago. -/
def hasActiveMonitor (monitors : List (String × ℚ)) (now : ℚ) : Bool :=
  monitors.any (fun m => durationSince now m.2 ≤ 15)

/-- HashMap-style insert for the active-monitors map. -/
def insertMonitor (monitors : List (String × ℚ)) (key : String) (t : ℚ) :
    List (String × ℚ) :=
  (key, t) :: monitors.filter (fun m => decide (m.1 ≠ key))

/-- Model of `handle_imbalance_alert` (lines 63–170), restricted to its
effect on the active-monitors map: bail out when no Kalshi market is
tracked or the first tracked market has no order book; skip the alert
when any monitoring session started within the last 15 seconds; else
register a session keyed `symbol_detectedTimestamp` started `now`. -/
def handleImbalanceAlert (st : KalshiState) (monitors : List (String × ℚ))
    (symbol : String) (detectedTs : ℤ) (now : ℚ) : List (String × ℚ) :=
  match st.tracked_markets.head? with
  | none => monitors
  | some ticker =>
    match lookupBook st.orderbooks ticker with
    | none => monitors
    | some _ =>
      if hasActiveMonitor monitors now then monitors
      else insertMonitor monitors (symbol ++ "_" ++ toString detectedTs) now

/-! ## Imbalance detector (`src/exchanges/binance/sbe/events/depth.rs::print_update`) -/

/-- Exact-rational model of the IEEE-754 comparison `b / a > c` as
computed by the source on `f64` (for finite `b`, `a`, `c`): when
`a = 0` the quotient is `+∞` (true for positive `b`), `−∞` or NaN
(both false). -/
def divGtIEEE (b a c : ℚ) : Bool :=
  if a = 0 then decide (0 < b) else decide (c < b / a)

/-- Exact-rational model of the IEEE-754 comparison `b / a < c` as
computed by the source on `f64` (for finite `b`, `a`, `c`): when
`a = 0` the quotient is `−∞` (true for negative `b`), `+∞` or NaN
(both false). -/
def divLtIEEE (b a c : ℚ) : Bool :=
  if a = 0 then decide (b < 0) else decide (b / a < c)

/-- The alert-emission decision of
`events/depth.rs::DepthSnapshotStreamEvent::print_update`
(lines 132–164), as a function of the six quantity sums: return early
(no alert) when `top_5_asks_total_qty <= 0.0`; otherwise emit exactly
when some ratio exceeds `100.0` or falls below `0.01`. -/
def depthImbalanceEmits (b5 b10 ball a5 a10 aall : ℚ) : Bool :=
  if a5 ≤ 0 then false
  else
    divGtIEEE b5 a5 100 || divGtIEEE b10 a10 100 || divGtIEEE ball aall 100 ||
    divLtIEEE b5 a5 (1 / 100) || divLtIEEE b10 a10 (1 / 100) ||
    divLtIEEE ball aall (1 / 100)

/-- The specification's reading of "the ratio `b / a` is strictly
greater than 100.0 or strictly less than 0.01", under the program's
`f64` arithmetic: for a non-zero denominator this is ordinary rational
arithmetic; for a zero denominator the quotient is `±∞` for non-zero
`b` (always out of band) and NaN for `b = 0` (never out of band). -/
def ratioOutOfBand (b a : ℚ) : Prop :=
  if a = 0 then b ≠ 0 else 100 < b / a ∨ b / a < 1 / 100

/-- One ratio's code-side test (either comparison fires) agrees with
the out-of-band predicate. -/
lemma divIEEE_iff_outOfBand (b a : ℚ) :
    (divGtIEEE b a 100 = true ∨ divLtIEEE b a (1 / 100) = true) ↔
      ratioOutOfBand b a := by
  unfold divGtIEEE divLtIEEE ratioOutOfBand
  by_cases ha : a = 0
  · simp only [ha, if_true, if_pos, decide_eq_true_eq]
    constructor
    · rintro (h | h)
      · exact ne_of_gt h
      · exact ne_of_lt h
    · intro h
      rcases lt_or_gt_of_ne h with h' | h'
      · exact Or.inr h'
      · exact Or.inl h'
  · simp [ha]

/-! ## C1 — imbalance detector gate -/

/-- **C1.** For every CEX depth snapshot (that is, for all six quantity
sums it can produce): if the top-5 ask sum is `≤ 0` no alert is
emitted regardless of bids; otherwise an alert is emitted iff at least
one of the three ratios (top-5, top-10, all) is strictly above `100.0`
or strictly below `0.01`. -/
theorem imbalance_gate_characterization (b5 b10 ball a5 a10 aall : ℚ) :
    (a5 ≤ 0 → depthImbalanceEmits b5 b10 ball a5 a10 aall = false) ∧
    (0 < a5 →
      (depthImbalanceEmits b5 b10 ball a5 a10 aall = true ↔
        ratioOutOfBand b5 a5 ∨ ratioOutOfBand b10 a10 ∨
          ratioOutOfBand ball aall)) := by
  constructor
  · intro h
    simp [depthImbalanceEmits, h]
  · intro h
    have ha5 : ¬a5 ≤ 0 := not_le.mpr h
    have e5 := divIEEE_iff_outOfBand b5 a5
    have e10 := divIEEE_iff_outOfBand b10 a10
    have eall := divIEEE_iff_outOfBand ball aall
    simp only [depthImbalanceEmits, if_neg ha5, Bool.or_eq_true]
    constructor
    · rintro (((((hg | hg) | hg) | hl) | hl) | hl)
      · exact Or.inl (e5.mp (Or.inl hg))
      · exact Or.inr (Or.inl (e10.mp (Or.inl hg)))
      · exact Or.inr (Or.inr (eall.mp (Or.inl hg)))
      · exact Or.inl (e5.mp (Or.inr hl))
      · exact Or.inr (Or.inl (e10.mp (Or.inr hl)))
      · exact Or.inr (Or.inr (eall.mp (Or.inr hl)))
    · rintro (hs | hs | hs)
      · rcases e5.mpr hs with h' | h'
        · exact Or.inl (Or.inl (Or.inl (Or.inl (Or.inl h'))))
        · exact Or.inl (Or.inl (Or.inr h'))
      · rcases e10.mpr hs with h' | h'
        · exact Or.inl (Or.inl (Or.inl (Or.inl (Or.inr h'))))
        · exact Or.inl (Or.inr h')
      · rcases eall.mpr hs with h' | h'
        · exact Or.inl (Or.inl (Or.inl (Or.inr h')))
        · exact Or.inr h'

/-- Witness for C1 at concrete sums: bids 2000 against asks 10 on every
depth (ratio 200) emits an alert, and with a non-positive top-5 ask
sum nothing is emitted. -/
theorem imbalance_gate_characterization_witness :
    depthImbalanceEmits 2000 2000 2000 10 10 10 = true ∧
    depthImbalanceEmits 2000 2000 2000 0 10 10 = false := by
  constructor
  · exact (imbalance_gate_characterization 2000 2000 2000 10 10 10).2
      (by norm_num) |>.mpr (Or.inl (by norm_num [ratioOutOfBand]))
  · exact (imbalance_gate_characterization 2000 2000 2000 0 10 10).1 le_rfl

/-! ## C4 — alert gating keeps at most one session -/

/-- **C4.** For two imbalance alerts handled less than 15 seconds
apart, at most one monitoring session exists afterwards; moreover, if
the first alert did create a session, the second is skipped and
changes nothing. -/
theorem alert_gating_single_session (st1 st2 : KalshiState)
    (k1 k2 : String) (ts1 ts2 : ℤ) (t1 t2 : ℚ)
    (hord : t1 ≤ t2) (hlt : t2 - t1 < 15) :
    (handleImbalanceAlert st2 (handleImbalanceAlert st1 [] k1 ts1 t1)
        k2 ts2 t2).length ≤ 1 ∧
      (handleImbalanceAlert st1 [] k1 ts1 t1 ≠ [] →
        handleImbalanceAlert st2 (handleImbalanceAlert st1 [] k1 ts1 t1)
            k2 ts2 t2 =
          handleImbalanceAlert st1 [] k1 ts1 t1) := by
  have hm1 : handleImbalanceAlert st1 [] k1 ts1 t1 = [] ∨
      handleImbalanceAlert st1 [] k1 ts1 t1 =
        [(k1 ++ "_" ++ toString ts1, t1)] := by
    unfold handleImbalanceAlert
    split
    · exact Or.inl rfl
    · split
      · exact Or.inl rfl
      · split
        · exact Or.inl rfl
        · exact Or.inr (by simp [insertMonitor])
  have step : ∀ (st : KalshiState) (ms : List (String × ℚ)) (k : String)
      (ts : ℤ) (t : ℚ), handleImbalanceAlert st ms k ts t = ms ∨
        (¬hasActiveMonitor ms t ∧
          handleImbalanceAlert st ms k ts t =
            insertMonitor ms (k ++ "_" ++ toString ts) t) := by
    intro st ms k ts t
    unfold handleImbalanceAlert
    split
    · exact Or.inl rfl
    · split
      · exact Or.inl rfl
      · split
        next hact => exact Or.inl rfl
        next hact => exact Or.inr ⟨by simpa using hact, rfl⟩
  rcases hm1 with hm1 | hm1
  · rw [hm1]
    rcases step st2 [] k2 ts2 t2 with h2 | ⟨_, h2⟩ <;> rw [h2]
    · exact ⟨by simp, fun h => absurd rfl h⟩
    · exact ⟨by simp [insertMonitor], fun h => absurd rfl h⟩
  · -- the first alert created a session started at `t1`
    have hactive : hasActiveMonitor
        (handleImbalanceAlert st1 [] k1 ts1 t1) t2 = true := by
      rw [hm1]
      simp only [hasActiveMonitor, List.any_cons, List.any_nil,
        Bool.or_false, durationSince, decide_eq_true_eq]
      have h1 : t2 - t1 ≤ 15 := le_of_lt hlt
      have h2 : (0 : ℚ) ≤ 15 := by norm_num
      exact max_le h1 h2
    rcases step st2 (handleImbalanceAlert st1 [] k1 ts1 t1) k2 ts2 t2 with
      h2 | ⟨hno, _⟩
    · refine ⟨?_, fun _ => h2⟩
      rw [h2, hm1]
      simp
    · exact absurd hactive (by simpa using hno)

/-- Witness for C4: with one tracked market carrying a book, an alert
at `t = 0` starts a session and a second alert 10 seconds later leaves
the session map untouched. -/
theorem alert_gating_single_session_witness :
    (handleImbalanceAlert ⟨["M"], [("M", emptyBook "M")]⟩
        (handleImbalanceAlert ⟨["M"], [("M", emptyBook "M")]⟩ [] "BTCUSDT" 7 0)
        "BTCUSDT" 12 10).length ≤ 1 ∧
      handleImbalanceAlert ⟨["M"], [("M", emptyBook "M")]⟩
          (handleImbalanceAlert ⟨["M"], [("M", emptyBook "M")]⟩ [] "BTCUSDT" 7 0)
          "BTCUSDT" 12 10 =
        handleImbalanceAlert ⟨["M"], [("M", emptyBook "M")]⟩ [] "BTCUSDT" 7 0 := by
  have h := alert_gating_single_session ⟨["M"], [("M", emptyBook "M")]⟩
    ⟨["M"], [("M", emptyBook "M")]⟩ "BTCUSDT" "BTCUSDT" 7 12 0 10
    (by norm_num) (by norm_num)
  refine ⟨h.1, h.2 ?_⟩
  simp [handleImbalanceAlert, lookupBook, hasActiveMonitor, insertMonitor]

/-! ## C9 — untracked snapshots are dropped, deltas are not -/

/-- **C9.** A snapshot for an untracked ticker leaves the store
unchanged, while a delta (whose price parses) creates or mutates a
book entry for its ticker with no tracking requirement. -/
theorem untracked_snapshot_dropped_delta_applied (st : KalshiState)
    (ob : KalshiOrderbook) (delta : KalshiOrderbookDelta) (p : ℚ)
    (hnt : st.tracked_markets.contains ob.market_ticker = false)
    (hp : delta.price_parse = some p) :
    epHandleOrderbookUpdate st ob = st ∧
      lookupBook (epHandleOrderbookDelta st delta).orderbooks
          delta.market_ticker ≠ none := by
  constructor
  · have hnt' : ¬ob.market_ticker ∈ st.tracked_markets := by simpa using hnt
    simp [epHandleOrderbookUpdate, hnt']
  · simp [epHandleOrderbookDelta, hp, lookupBook, setBook, List.find?]

/-- Witness for C9: the empty store tracks nothing; a snapshot for
ticker "A" leaves it empty while a delta for "A" creates a book. -/
theorem untracked_snapshot_dropped_delta_applied_witness :
    epHandleOrderbookUpdate ⟨[], []⟩ (emptyBook "A") = ⟨[], []⟩ ∧
      lookupBook (epHandleOrderbookDelta ⟨[], []⟩
          ⟨"A", some (1 / 2), 3, "yes"⟩).orderbooks "A" ≠ none :=
  untracked_snapshot_dropped_delta_applied ⟨[], []⟩ (emptyBook "A")
    ⟨"A", some (1 / 2), 3, "yes"⟩ (1 / 2) (by simp [emptyBook]) rfl

/-! ## C10 — saturating quantity arithmetic -/

/-- **C10.** Delta application uses saturating 64-bit addition: the
result of `saturating_add` always stays inside the `i64` range, and a
level holding `i64::MAX` hit by any positive delta keeps quantity
`i64::MAX` (the level list is unchanged). -/
theorem saturating_delta_no_wrap :
    (∀ a b : ℤ, i64Min ≤ saturatingAdd a b ∧ saturatingAdd a b ≤ i64Max) ∧
      (∀ (ls : List OrderbookLevel) (p : ℚ) (d : ℤ) (lvl : OrderbookLevel),
        ls.find? (fun l => priceMatches l p) = some lvl →
        lvl.quantity = i64Max → 0 < d →
        applyDeltaToLevels ls p d = ls) := by
  constructor
  · intro a b
    refine ⟨le_max_left _ _, max_le (by norm_num [i64Min, i64Max]) (min_le_left _ _)⟩
  · intro ls p d lvl hfind hmax hd
    induction ls with
    | nil => simp at hfind
    | cons l rest ih =>
      by_cases hm : priceMatches l p
      · simp only [List.find?, hm] at hfind
        have hl : l = lvl := by exact Option.some.inj hfind
        subst hl
        have hsat : saturatingAdd l.quantity d = i64Max := by
          rw [hmax]
          have h1 : i64Max ≤ i64Max + d := by omega
          have : min i64Max (i64Max + d) = i64Max := min_eq_left h1
          rw [saturatingAdd, this]
          exact max_eq_right (by norm_num [i64Min, i64Max])
        have hpos : ¬saturatingAdd l.quantity d ≤ 0 := by
          rw [hsat]; norm_num [i64Max]
        simp only [applyDeltaToLevels, if_pos hm, if_neg hpos]
        rw [hsat, ← hmax]
      · have hmf : priceMatches l p = false := Bool.not_eq_true _ |>.mp hm
        simp only [List.find?, hmf] at hfind
        simp only [applyDeltaToLevels, if_neg hm]
        rw [ih hfind]

/-- Witness for C10: saturating bounds at `a = b = 2^62`, and a level
at `i64::MAX` hit with `+7` is unchanged. -/
theorem saturating_delta_no_wrap_witness :
    (i64Min ≤ saturatingAdd (2 ^ 62) (2 ^ 62) ∧
        saturatingAdd (2 ^ 62) (2 ^ 62) ≤ i64Max) ∧
      applyDeltaToLevels [⟨1 / 2, i64Max⟩] (1 / 2) 7 = [⟨1 / 2, i64Max⟩] := by
  refine ⟨saturating_delta_no_wrap.1 (2 ^ 62) (2 ^ 62), ?_⟩
  exact saturating_delta_no_wrap.2 [⟨1 / 2, i64Max⟩] (1 / 2) 7 ⟨1 / 2, i64Max⟩
    (by simp [List.find?, priceMatches, priceEps]) rfl (by norm_num)

/-! ## Sorted-head lemmas for the derived-ask analysis -/

/-- The head of the descending sort is a maximum-price element. -/
lemma sortBidsDesc_head_best (L : List OrderbookLevel) (x : OrderbookLevel)
    (hx : (sortBidsDesc L).head? = some x) :
    x ∈ L ∧ ∀ l ∈ L, l.price ≤ x.price := by
  have htrans : ∀ a b c : OrderbookLevel,
      (fun a b : OrderbookLevel => decide (b.price ≤ a.price)) a b →
      (fun a b : OrderbookLevel => decide (b.price ≤ a.price)) b c →
      (fun a b : OrderbookLevel => decide (b.price ≤ a.price)) a c := by
    intro a b c hab hbc
    simp only [decide_eq_true_eq] at *
    exact le_trans hbc hab
  have htotal : ∀ a b : OrderbookLevel,
      ((fun a b : OrderbookLevel => decide (b.price ≤ a.price)) a b ||
        (fun a b : OrderbookLevel => decide (b.price ≤ a.price)) b a) := by
    intro a b
    simp only [Bool.or_eq_true, decide_eq_true_eq]
    exact le_total b.price a.price
  have hsorted :
      (L.mergeSort (fun a b : OrderbookLevel => decide (b.price ≤ a.price))).Pairwise
        (fun a b : OrderbookLevel => decide (b.price ≤ a.price)) :=
    List.sorted_mergeSort htrans htotal L
  unfold sortBidsDesc at hx
  cases hs : L.mergeSort (fun a b : OrderbookLevel => decide (b.price ≤ a.price)) with
  | nil => rw [hs] at hx; simp at hx
  | cons y t =>
    rw [hs] at hx
    have hyx : y = x := by simpa using hx
    subst hyx
    rw [hs] at hsorted
    have hmem : y ∈ L := by
      have : y ∈ y :: t := List.mem_cons_self y t
      rw [← hs] at this
      exact List.mem_mergeSort.mp this
    refine ⟨hmem, fun l hl => ?_⟩
    have hl' : l ∈ y :: t := by
      rw [← hs]
      exact List.mem_mergeSort.mpr hl
    rcases List.mem_cons.mp hl' with h | h
    · subst h; exact le_refl _
    · have := (List.pairwise_cons.mp hsorted).1 l h
      simpa using this

/-- The head of the ascending sort is a minimum-price element. -/
lemma sortAsksAsc_head_best (L : List OrderbookLevel) (x : OrderbookLevel)
    (hx : (sortAsksAsc L).head? = some x) :
    x ∈ L ∧ ∀ l ∈ L, x.price ≤ l.price := by
  have htrans : ∀ a b c : OrderbookLevel,
      (fun a b : OrderbookLevel => decide (a.price ≤ b.price)) a b →
      (fun a b : OrderbookLevel => decide (a.price ≤ b.price)) b c →
      (fun a b : OrderbookLevel => decide (a.price ≤ b.price)) a c := by
    intro a b c hab hbc
    simp only [decide_eq_true_eq] at *
    exact le_trans hab hbc
  have htotal : ∀ a b : OrderbookLevel,
      ((fun a b : OrderbookLevel => decide (a.price ≤ b.price)) a b ||
        (fun a b : OrderbookLevel => decide (a.price ≤ b.price)) b a) := by
    intro a b
    simp only [Bool.or_eq_true, decide_eq_true_eq]
    exact le_total a.price b.price
  have hsorted :
      (L.mergeSort (fun a b : OrderbookLevel => decide (a.price ≤ b.price))).Pairwise
        (fun a b : OrderbookLevel => decide (a.price ≤ b.price)) :=
    List.sorted_mergeSort htrans htotal L
  unfold sortAsksAsc at hx
  cases hs : L.mergeSort (fun a b : OrderbookLevel => decide (a.price ≤ b.price)) with
  | nil => rw [hs] at hx; simp at hx
  | cons y t =>
    rw [hs] at hx
    have hyx : y = x := by simpa using hx
    subst hyx
    rw [hs] at hsorted
    have hmem : y ∈ L := by
      have : y ∈ y :: t := List.mem_cons_self y t
      rw [← hs] at this
      exact List.mem_mergeSort.mp this
    refine ⟨hmem, fun l hl => ?_⟩
    have hl' : l ∈ y :: t := by
      rw [← hs]
      exact List.mem_mergeSort.mpr hl
    rcases List.mem_cons.mp hl' with h | h
    · subst h; exact le_refl _
    · have := (List.pairwise_cons.mp hsorted).1 l h
      simpa using this

/-- For the Kalshi-client derive-then-sort pipeline, the best derived
ask price over `L.map (1 − ·)` is `1 −` the best bid price over `L`. -/
lemma derived_head_price (L : List OrderbookLevel) :
    (sortAsksAsc (L.map fun l =>
        OrderbookLevel.mk (1 - l.price) l.quantity)).head?.map OrderbookLevel.price =
      (sortBidsDesc L).head?.map (fun l => 1 - l.price) := by
  cases L with
  | nil => simp [sortAsksAsc, sortBidsDesc]
  | cons a as =>
    have hdesc_len : (sortBidsDesc (a :: as)).length = as.length + 1 := by
      simp [sortBidsDesc]
    have hasc_len :
        (sortAsksAsc ((a :: as).map fun l =>
          OrderbookLevel.mk (1 - l.price) l.quantity)).length = as.length + 1 := by
      simp [sortAsksAsc]
    obtain ⟨x, hx⟩ : ∃ x, (sortBidsDesc (a :: as)).head? = some x := by
      cases hh : (sortBidsDesc (a :: as)) with
      | nil => rw [hh] at hdesc_len; simp at hdesc_len
      | cons y t => exact ⟨y, by simp [hh]⟩
    obtain ⟨z, hz⟩ : ∃ z, (sortAsksAsc ((a :: as).map fun l =>
        OrderbookLevel.mk (1 - l.price) l.quantity)).head? = some z := by
      cases hh : sortAsksAsc ((a :: as).map fun l =>
          OrderbookLevel.mk (1 - l.price) l.quantity) with
      | nil => rw [hh] at hasc_len; simp at hasc_len
      | cons y t => exact ⟨y, by simp [hh]⟩
    obtain ⟨hxmem, hxmax⟩ := sortBidsDesc_head_best _ _ hx
    obtain ⟨hzmem, hzmin⟩ := sortAsksAsc_head_best _ _ hz
    rw [hx, hz]
    show some z.price = some (1 - x.price)
    congr 1
    -- pincer: `z.price ≤ 1 − x.price` and `1 − x.price ≤ z.price`
    have hle : z.price ≤ 1 - x.price := by
      have : OrderbookLevel.mk (1 - x.price) x.quantity ∈
          (a :: as).map fun l => OrderbookLevel.mk (1 - l.price) l.quantity :=
        List.mem_map_of_mem _ hxmem
      exact hzmin _ this
    have hge : 1 - x.price ≤ z.price := by
      obtain ⟨l2, hl2mem, hl2eq⟩ := List.mem_map.mp hzmem
      have : l2.price ≤ x.price := hxmax _ hl2mem
      have hzp : z.price = 1 - l2.price := by rw [← hl2eq]
      rw [hzp]
      linarith
    linarith

/-! ## C3 — derived-asks invariant -/

/-- The claimed single-level derived-ask invariant, for one book. -/
def epDerivedInv (b : KalshiOrderbook) : Prop :=
  (∀ l0, b.no_bids.head? = some l0 →
    b.yes_asks = [OrderbookLevel.mk (1 - l0.price) 0]) ∧
  (∀ l0, b.yes_bids.head? = some l0 →
    b.no_asks = [OrderbookLevel.mk (1 - l0.price) 0]) ∧
  (b.no_bids = [] → b.yes_asks = []) ∧
  (b.yes_bids = [] → b.no_asks = [])

/-- The weaker invariant actually maintained by the Kalshi-client
mutation path: one derived ask per opposing bid, with the *best*
derived-ask price still `1 −` the best opposing bid price. -/
def clientDerivedInv (b : KalshiOrderbook) : Prop :=
  b.yes_asks.length = b.no_bids.length ∧
  b.no_asks.length = b.yes_bids.length ∧
  b.yes_asks.head?.map OrderbookLevel.price =
    b.no_bids.head?.map (fun l => 1 - l.price) ∧
  b.no_asks.head?.map OrderbookLevel.price =
    b.yes_bids.head?.map (fun l => 1 - l.price)

/-- Any book produced by `epRefreshDerivedAsks` satisfies the
single-level invariant. -/
lemma epRefreshDerivedAsks_inv (b : KalshiOrderbook) :
    epDerivedInv (epRefreshDerivedAsks b) := by
  unfold epDerivedInv epRefreshDerivedAsks
  refine ⟨?_, ?_, ?_, ?_⟩
  · intro l0 h0
    rw [show (b.no_bids.head? = some l0) from h0]
  · intro l0 h0
    rw [show (b.yes_bids.head? = some l0) from h0]
  · intro h0
    rw [show (b.no_bids = []) from h0]
    rfl
  · intro h0
    rw [show (b.yes_bids = []) from h0]
    rfl

/-- Any book produced by the client's derive-then-sort pipeline
satisfies the mirrored-depth invariant. -/
lemma client_derive_sort_inv (b : KalshiOrderbook) :
    clientDerivedInv (sortOrderbook (deriveAsksFromBids b)) := by
  unfold clientDerivedInv sortOrderbook deriveAsksFromBids
  refine ⟨?_, ?_, ?_, ?_⟩
  · simp [sortAsksAsc, sortBidsDesc]
  · simp [sortAsksAsc, sortBidsDesc]
  · exact derived_head_price b.no_bids
  · exact derived_head_price b.yes_bids

/-- **C3 counterexample.** A Kalshi-client snapshot with two NO-bid
levels yields a book whose `no_bids` is non-empty while `yes_asks` has
two levels, not one: the client mutation path violates the
single-derived-ask claim. -/
theorem derived_asks_single_level_counterexample :
    (clientApplySnapshot (emptyBook "T")
        ⟨"T", [], [], [⟨47 / 100, 90⟩, ⟨40 / 100, 10⟩], []⟩).no_bids ≠ [] ∧
      (clientApplySnapshot (emptyBook "T")
          ⟨"T", [], [], [⟨47 / 100, 90⟩, ⟨40 / 100, 10⟩], []⟩).yes_asks.length ≠ 1 := by
  constructor
  · apply List.ne_nil_of_length_pos
    simp [clientApplySnapshot, sortOrderbook, deriveAsksFromBids, sortBidsDesc,
      emptyBook]
  · simp [clientApplySnapshot, sortOrderbook, deriveAsksFromBids, sortBidsDesc,
      sortAsksAsc, emptyBook]

/-- **C3 amended.** After every event-processor mutation (snapshot or
delta), `yes_asks` is the single level `1 − no_bids[0].price` whenever
`no_bids` is non-empty (and empty otherwise), symmetrically for
`no_asks`; after every Kalshi-client mutation, each derived-ask side
instead mirrors the whole opposing bid side level-for-level, and its
*best* price still equals `1 −` the best opposing bid price. -/
theorem derived_asks_invariant_amended (existing ob : KalshiOrderbook)
    (side : String) (p : ℚ) (d : ℤ) :
    epDerivedInv (epApplySnapshot existing ob) ∧
      epDerivedInv (epApplyDelta existing side p d) ∧
      clientDerivedInv (clientApplySnapshot existing ob) ∧
      clientDerivedInv (clientApplyDelta existing side p d) :=
  ⟨epRefreshDerivedAsks_inv _, epRefreshDerivedAsks_inv _,
    client_derive_sort_inv _, client_derive_sort_inv _⟩

/-! ## C5 — delta application rule and the 0.53 scenario -/

/-- **C5.** When the first price-matching level (within `1e-12`)
exists, the delta increments its quantity, removing the level when the
result is `≤ 0`; concretely, `+5` at price `0.53` on an empty YES bid
side yields exactly `{0.53, 5}` and a subsequent `−5` empties the side
again, through both the event-processor and Kalshi-client paths. -/
theorem delta_application_rule (pre post : List OrderbookLevel)
    (lvl : OrderbookLevel) (p : ℚ) (d : ℤ)
    (hpre : ∀ l ∈ pre, priceMatches l p = false)
    (hlvl : priceMatches lvl p = true) :
    applyDeltaToLevels (pre ++ lvl :: post) p d =
      (if saturatingAdd lvl.quantity d ≤ 0 then pre ++ post
        else pre ++ { lvl with quantity := saturatingAdd lvl.quantity d } :: post) ∧
    (epApplyDelta (emptyBook "T") "yes" (53 / 100) 5).yes_bids =
      [⟨53 / 100, 5⟩] ∧
    (epApplyDelta (epApplyDelta (emptyBook "T") "yes" (53 / 100) 5) "yes"
        (53 / 100) (-5)).yes_bids = [] ∧
    (clientApplyDelta (emptyBook "T") "yes" (53 / 100) 5).yes_bids =
      [⟨53 / 100, 5⟩] ∧
    (clientApplyDelta (clientApplyDelta (emptyBook "T") "yes" (53 / 100) 5)
        "yes" (53 / 100) (-5)).yes_bids = [] := by
  have hyes : rustToLowercase "yes" = "yes" := by decide
  refine ⟨?_, ?_, ?_, ?_, ?_⟩
  · induction pre with
    | nil =>
      simp only [List.nil_append, applyDeltaToLevels, hlvl, if_true]
    | cons x xs ih =>
      have hx : priceMatches x p = false := hpre x (List.mem_cons_self x xs)
      have hxs : ∀ l ∈ xs, priceMatches l p = false := fun l hl =>
        hpre l (List.mem_cons_of_mem x hl)
      simp only [List.cons_append, applyDeltaToLevels, hx, Bool.false_eq_true,
        if_false, List.append_eq]
      rw [ih hxs]
      split <;> simp
  · norm_num [epApplyDelta, emptyBook, epRefreshDerivedAsks, sortBidsDesc,
      applyDeltaToLevels, hyes]
  · norm_num [epApplyDelta, emptyBook, epRefreshDerivedAsks, sortBidsDesc,
      applyDeltaToLevels, hyes, priceMatches, priceEps, saturatingAdd,
      i64Min, i64Max]
  · norm_num [clientApplyDelta, emptyBook, sortOrderbook, deriveAsksFromBids,
      sortBidsDesc, sortAsksAsc, applyDeltaToLevels, hyes]
  · norm_num [clientApplyDelta, emptyBook, sortOrderbook, deriveAsksFromBids,
      sortBidsDesc, sortAsksAsc, applyDeltaToLevels, hyes, priceMatches,
      priceEps, saturatingAdd, i64Min, i64Max]

/-- Witness for C5: the matching-level rule applied at a single level
`(1, 5)` with delta `+3` yields `(1, 8)`. -/
theorem delta_application_rule_witness :
    applyDeltaToLevels [⟨1, 5⟩] 1 3 = [⟨1, 8⟩] := by
  have h := delta_application_rule [] [] ⟨1, 5⟩ 1 3 (by simp)
    (by norm_num [priceMatches, priceEps])
  have h1 := h.1
  norm_num [saturatingAdd, i64Min, i64Max] at h1
  simpa using h1

/-! ## C6 — net-zero delta sequences -/

/-- The level set a book side holds at (within `1e-12` of) a price. -/
def levelsAtPrice (ls : List OrderbookLevel) (p : ℚ) : List OrderbookLevel :=
  ls.filter (fun l => priceMatches l p)

/-- A freshly created level matches its own price. -/
lemma priceMatches_self (p : ℚ) (q : ℤ) :
    priceMatches ⟨p, q⟩ p = true := by
  norm_num [priceMatches, priceEps]

/-- Single-delta step preserves the canonical shape of the level set
at `p`, tracking the ideal running quantity, as long as the running
quantity never leaves `[0, i64::MAX]`. -/
lemma applyDelta_levelsAtPrice (p : ℚ) :
    ∀ (ls : List OrderbookLevel) (q d : ℤ),
      levelsAtPrice ls p = (if 0 < q then [⟨p, q⟩] else []) →
      0 ≤ q → 0 ≤ q + d → q + d ≤ i64Max →
      levelsAtPrice (applyDeltaToLevels ls p d) p =
        (if 0 < q + d then [⟨p, q + d⟩] else []) := by
  intro ls
  induction ls with
  | nil =>
    intro q d hinv hq0 hlo hhi
    have hq : q = 0 := by
      by_cases h : 0 < q
      · rw [if_pos h] at hinv
        simp [levelsAtPrice] at hinv
      · omega
    subst hq
    simp only [applyDeltaToLevels]
    by_cases hd : 0 < d
    · rw [if_pos hd]
      simp only [levelsAtPrice, List.filter, priceMatches_self]
      rw [if_pos (by omega : (0 : ℤ) < 0 + d)]
      norm_num
    · rw [if_neg hd]
      rw [if_neg (by omega : ¬(0 : ℤ) < 0 + d)]
      rfl
  | cons l rest ih =>
    intro q d hinv hq0 hlo hhi
    by_cases hm : priceMatches l p
    · have hfil : levelsAtPrice (l :: rest) p = l :: levelsAtPrice rest p := by
        simp [levelsAtPrice, List.filter, hm]
      rw [hfil] at hinv
      have hqpos : 0 < q := by
        by_cases h : 0 < q
        · exact h
        · rw [if_neg h] at hinv; simp at hinv
      rw [if_pos hqpos] at hinv
      have hl : l = ⟨p, q⟩ := (List.cons.injEq _ _ _ _).mp hinv |>.1
      have hrest : levelsAtPrice rest p = [] :=
        (List.cons.injEq _ _ _ _).mp hinv |>.2
      have hsat : saturatingAdd l.quantity d = q + d := by
        rw [hl]
        have : i64Min ≤ q + d := by
          have : (0 : ℤ) ≤ q + d := hlo
          norm_num [i64Min]
          omega
        simp only [saturatingAdd]
        rw [min_eq_right hhi, max_eq_right this]
      simp only [applyDeltaToLevels, hm, if_true]
      by_cases hz : saturatingAdd l.quantity d ≤ 0
      · rw [if_pos hz]
        rw [hsat] at hz
        have : q + d = 0 := le_antisymm hz hlo
        rw [this] at *
        rw [if_neg (by omega : ¬(0 : ℤ) < 0)]
        exact hrest
      · rw [if_neg hz]
        rw [hsat] at hz
        have hpos : 0 < q + d := lt_of_le_of_ne hlo (by omega)
        rw [if_pos hpos]
        have hlvl : ({ l with quantity := saturatingAdd l.quantity d } :
            OrderbookLevel) = ⟨p, q + d⟩ := by
          rw [hsat, hl]
        rw [hlvl]
        have hcons : levelsAtPrice (⟨p, q + d⟩ :: rest) p =
            OrderbookLevel.mk p (q + d) :: levelsAtPrice rest p := by
          simp [levelsAtPrice, List.filter, priceMatches_self]
        rw [hcons, hrest]
    · have hmf : priceMatches l p = false := Bool.not_eq_true _ |>.mp hm
      have hfil : levelsAtPrice (l :: rest) p = levelsAtPrice rest p := by
        simp [levelsAtPrice, List.filter, hmf]
      rw [hfil] at hinv
      simp only [applyDeltaToLevels, hmf, Bool.false_eq_true, if_false]
      have : levelsAtPrice (l :: applyDeltaToLevels rest p d) p =
          levelsAtPrice (applyDeltaToLevels rest p d) p := by
        simp [levelsAtPrice, List.filter, hmf]
      rw [this]
      exact ih q d hinv hq0 hlo hhi

/-- Sorting (a permutation) preserves the canonical level-set shape. -/
lemma sortBidsDesc_levelsAtPrice (ls : List OrderbookLevel) (p : ℚ) (q : ℤ)
    (h : levelsAtPrice ls p = (if 0 < q then [⟨p, q⟩] else [])) :
    levelsAtPrice (sortBidsDesc ls) p = (if 0 < q then [⟨p, q⟩] else []) := by
  have hperm : List.Perm (levelsAtPrice (sortBidsDesc ls) p)
      (levelsAtPrice ls p) := (List.mergeSort_perm ls _).filter _
  rw [h] at hperm
  by_cases h0 : 0 < q
  · rw [if_pos h0] at hperm ⊢
    exact List.perm_singleton.mp hperm
  · rw [if_neg h0] at hperm ⊢
    exact List.Perm.eq_nil hperm

/-- The bid side a delta is applied to, following the source's
`let levels = if side == "yes" { &mut yes_bids } else { &mut no_bids }`
(after lowercasing). -/
def bidSideOf (b : KalshiOrderbook) (side : String) : List OrderbookLevel :=
  if rustToLowercase side = "yes" then b.yes_bids else b.no_bids

/-- The mutated bid side's evolution under the event-processor delta
handler, for either side. -/
lemma epApplyDelta_bidSide (b : KalshiOrderbook) (side : String) (p : ℚ)
    (d : ℤ) :
    bidSideOf (epApplyDelta b side p d) side =
      sortBidsDesc (applyDeltaToLevels (bidSideOf b side) p d) := by
  by_cases hside : rustToLowercase side = "yes" <;>
    simp [bidSideOf, epApplyDelta, epRefreshDerivedAsks, hside]

/-- The mutated bid side's evolution under the Kalshi-client delta
handler, for either side: the client sorts twice (before and after
deriving asks). -/
lemma clientApplyDelta_bidSide (b : KalshiOrderbook) (side : String) (p : ℚ)
    (d : ℤ) :
    bidSideOf (clientApplyDelta b side p d) side =
      sortBidsDesc (sortBidsDesc (applyDeltaToLevels (bidSideOf b side) p d)) := by
  by_cases hside : rustToLowercase side = "yes" <;>
    simp [bidSideOf, clientApplyDelta, sortOrderbook, deriveAsksFromBids, hside]

/-- Fold form of the net-zero invariant over a delta sequence, for any
per-step post-processing (here: one or two stable sorts) that
preserves the canonical level-set shape at `p`. -/
lemma foldDeltas_levelsAtPrice (p : ℚ)
    (post : List OrderbookLevel → List OrderbookLevel)
    (hpost : ∀ (ls : List OrderbookLevel) (q : ℤ),
      levelsAtPrice ls p = (if 0 < q then [⟨p, q⟩] else []) →
      levelsAtPrice (post ls) p = (if 0 < q then [⟨p, q⟩] else [])) :
    ∀ (ds : List ℤ) (ls : List OrderbookLevel) (q : ℤ),
      levelsAtPrice ls p = (if 0 < q then [⟨p, q⟩] else []) →
      0 ≤ q →
      (∀ k ≤ ds.length, 0 ≤ q + (ds.take k).sum ∧
        q + (ds.take k).sum ≤ i64Max) →
      levelsAtPrice
          (ds.foldl (fun acc d => post (applyDeltaToLevels acc p d)) ls) p =
        (if 0 < q + ds.sum then [⟨p, q + ds.sum⟩] else []) := by
  intro ds
  induction ds with
  | nil =>
    intro ls q hinv hq0 hpre
    simpa using hinv
  | cons d rest ih =>
    intro ls q hinv hq0 hpre
    have hb1 := hpre 1 (by simp)
    simp only [List.take_succ_cons, List.take_zero, List.sum_cons,
      List.sum_nil, add_zero] at hb1
    have hstep := applyDelta_levelsAtPrice p ls q d hinv hq0 hb1.1 hb1.2
    have hsorted := hpost _ (q + d) hstep
    have hpre' : ∀ k ≤ rest.length, 0 ≤ (q + d) + (rest.take k).sum ∧
        (q + d) + (rest.take k).sum ≤ i64Max := by
      intro k hk
      have := hpre (k + 1) (by simpa using Nat.succ_le_succ hk)
      simp only [List.take_succ_cons, List.sum_cons] at this
      constructor <;> omega
    have := ih (post (applyDeltaToLevels ls p d)) (q + d)
      hsorted (hb1.1) hpre'
    simp only [List.foldl_cons]
    rw [this]
    simp only [List.sum_cons]
    have harith : q + d + rest.sum = q + (d + rest.sum) := by ring
    rw [harith]

/-- **C6 counterexample.** The delta sequence `[−5, +5]` has net
change zero at price `0.53`, yet applied to a book with an empty YES
side it leaves behind a brand-new level `{0.53, 5}`: the negative
delta is silently dropped on a missing level. -/
theorem net_zero_deltas_counterexample :
    ((-5 : ℤ) + 5 = 0) ∧
      levelsAtPrice
          (([(-5 : ℤ), 5].foldl (fun b d => epApplyDelta b "yes" (53 / 100) d)
              (emptyBook "T")).yes_bids) (53 / 100) ≠
        levelsAtPrice (emptyBook "T").yes_bids (53 / 100) := by
  have hyes : rustToLowercase "yes" = "yes" := by decide
  refine ⟨by norm_num, ?_⟩
  have h1 : ([(-5 : ℤ), 5].foldl (fun b d => epApplyDelta b "yes" (53 / 100) d)
      (emptyBook "T")).yes_bids = [⟨53 / 100, 5⟩] := by
    norm_num [List.foldl, epApplyDelta, epRefreshDerivedAsks, sortBidsDesc,
      applyDeltaToLevels, emptyBook, hyes]
  rw [h1]
  norm_num [levelsAtPrice, List.filter, priceMatches_self, emptyBook]

/-- **C6 amended.** For a delta sequence at price `p` on side `s`
(either side, through either the event-processor or the Kalshi-client
mutation path) whose net change is zero, the level set at `p` on that
side is restored *provided* the pre-state holds at most one level
there (price exactly `p`, positive in-range quantity, or none) and the
ideal running quantity never leaves `[0, i64::MAX]` — i.e. no negative
delta is dropped on a missing level and no saturation clamps. -/
theorem net_zero_deltas_amended (b0 : KalshiOrderbook) (side : String)
    (p : ℚ) (ds : List ℤ) (q0 : ℤ)
    (hinit : levelsAtPrice (bidSideOf b0 side) p =
      (if 0 < q0 then [⟨p, q0⟩] else []))
    (hq0 : 0 ≤ q0)
    (hpre : ∀ k ≤ ds.length, 0 ≤ q0 + (ds.take k).sum ∧
      q0 + (ds.take k).sum ≤ i64Max)
    (hnet : ds.sum = 0) :
    levelsAtPrice
        (bidSideOf (ds.foldl (fun b d => epApplyDelta b side p d) b0) side) p =
      levelsAtPrice (bidSideOf b0 side) p ∧
    levelsAtPrice
        (bidSideOf (ds.foldl (fun b d => clientApplyDelta b side p d) b0) side) p =
      levelsAtPrice (bidSideOf b0 side) p := by
  have hpost1 : ∀ (ls : List OrderbookLevel) (q : ℤ),
      levelsAtPrice ls p = (if 0 < q then [⟨p, q⟩] else []) →
      levelsAtPrice (sortBidsDesc ls) p = (if 0 < q then [⟨p, q⟩] else []) :=
    fun ls q h => sortBidsDesc_levelsAtPrice ls p q h
  have hpost2 : ∀ (ls : List OrderbookLevel) (q : ℤ),
      levelsAtPrice ls p = (if 0 < q then [⟨p, q⟩] else []) →
      levelsAtPrice (sortBidsDesc (sortBidsDesc ls)) p =
        (if 0 < q then [⟨p, q⟩] else []) :=
    fun ls q h =>
      sortBidsDesc_levelsAtPrice _ p q (sortBidsDesc_levelsAtPrice ls p q h)
  have hfoldEp : ∀ (ds' : List ℤ) (b : KalshiOrderbook),
      bidSideOf (ds'.foldl (fun b d => epApplyDelta b side p d) b) side =
        ds'.foldl (fun acc d => sortBidsDesc (applyDeltaToLevels acc p d))
          (bidSideOf b side) := by
    intro ds'
    induction ds' with
    | nil => intro b; rfl
    | cons d rest ih =>
      intro b
      simp only [List.foldl_cons]
      rw [ih, epApplyDelta_bidSide]
  have hfoldClient : ∀ (ds' : List ℤ) (b : KalshiOrderbook),
      bidSideOf (ds'.foldl (fun b d => clientApplyDelta b side p d) b) side =
        ds'.foldl
          (fun acc d => sortBidsDesc (sortBidsDesc (applyDeltaToLevels acc p d)))
          (bidSideOf b side) := by
    intro ds'
    induction ds' with
    | nil => intro b; rfl
    | cons d rest ih =>
      intro b
      simp only [List.foldl_cons]
      rw [ih, clientApplyDelta_bidSide]
  constructor
  · rw [hfoldEp]
    rw [foldDeltas_levelsAtPrice p _ hpost1 ds (bidSideOf b0 side) q0 hinit
      hq0 hpre]
    rw [hnet, add_zero, hinit]
  · rw [hfoldClient]
    rw [foldDeltas_levelsAtPrice p _ hpost2 ds (bidSideOf b0 side) q0 hinit
      hq0 hpre]
    rw [hnet, add_zero, hinit]

/-- Witness for C6 (amended): a YES level `(1/2, 10)` hit by
`[−10, +10]` is restored exactly, on both mutation paths. -/
theorem net_zero_deltas_amended_witness :
    levelsAtPrice
        (bidSideOf ([(-10 : ℤ), 10].foldl
          (fun b d => epApplyDelta b "yes" (1 / 2) d)
          ⟨"T", [⟨1 / 2, 10⟩], [], [], []⟩) "yes") (1 / 2) =
      levelsAtPrice
        (bidSideOf (KalshiOrderbook.mk "T" [⟨1 / 2, 10⟩] [] [] []) "yes")
        (1 / 2) ∧
    levelsAtPrice
        (bidSideOf ([(-10 : ℤ), 10].foldl
          (fun b d => clientApplyDelta b "yes" (1 / 2) d)
          ⟨"T", [⟨1 / 2, 10⟩], [], [], []⟩) "yes") (1 / 2) =
      levelsAtPrice
        (bidSideOf (KalshiOrderbook.mk "T" [⟨1 / 2, 10⟩] [] [] []) "yes")
        (1 / 2) := by
  apply net_zero_deltas_amended ⟨"T", [⟨1 / 2, 10⟩], [], [], []⟩ "yes" (1 / 2)
    [(-10 : ℤ), 10] 10
  · have hyes : rustToLowercase "yes" = "yes" := by decide
    norm_num [bidSideOf, hyes, levelsAtPrice, List.filter, priceMatches_self]
  · norm_num
  · intro k hk
    simp only [List.length_cons, List.length_nil] at hk
    interval_cases k <;> norm_num [i64Max]
  · norm_num

/-! ## Byte-level primitives (`src/exchanges/binance/sbe/utils.rs` and
`std::io::Cursor` reads) -/

/-- Little-endian value of a byte list. -/
def leNat (bs : List ℕ) : ℕ := bs.foldr (fun b acc => b + 256 * acc) 0

/-- Reinterpret an unsigned 64-bit value as `i64` (two's complement). -/
def toI64 (v : ℕ) : ℤ := if v < 2 ^ 63 then (v : ℤ) else (v : ℤ) - 2 ^ 64

/-- Reinterpret an unsigned 8-bit value as `i8` (two's complement). -/
def toI8 (v : ℕ) : ℤ := if v < 2 ^ 7 then (v : ℤ) else (v : ℤ) - 2 ^ 8

/-- Read `n` bytes at `pos`; fails when the buffer is too short, as
every cursor read in the source does. -/
def readBytesAt (data : List ℕ) (pos n : ℕ) : Option (List ℕ) :=
  if pos + n ≤ data.length then some ((data.drop pos).take n) else none

/-- Read one byte. -/
def readU8At (data : List ℕ) (pos : ℕ) : Option ℕ :=
  (readBytesAt data pos 1).map leNat

/-- Read a little-endian `u16`. -/
def readU16At (data : List ℕ) (pos : ℕ) : Option ℕ :=
  (readBytesAt data pos 2).map leNat

/-- Read a little-endian `u32`. -/
def readU32At (data : List ℕ) (pos : ℕ) : Option ℕ :=
  (readBytesAt data pos 4).map leNat

/-- Read a little-endian `i64`. -/
def readI64At (data : List ℕ) (pos : ℕ) : Option ℤ :=
  (readBytesAt data pos 8).map (fun bs => toI64 (leNat bs))

/-- Read an `i8`. -/
def readI8At (data : List ℕ) (pos : ℕ) : Option ℤ :=
  (readBytesAt data pos 1).map (fun bs => toI8 (leNat bs))

/-- Continuation-byte test for UTF-8. -/
def isUtf8Cont (b : ℕ) : Bool := 0x80 ≤ b ∧ b ≤ 0xBF

/-- RFC 3629 UTF-8 validity, the check performed by Rust's
`String::from_utf8` / `str::from_utf8` on decoded symbol bytes. -/
def utf8Valid : List ℕ → Bool
  | [] => true
  | b :: rest =>
    if b ≤ 0x7F then utf8Valid rest
    else if 0xC2 ≤ b ∧ b ≤ 0xDF then
      match rest with
      | c1 :: r => isUtf8Cont c1 && utf8Valid r
      | [] => false
    else if b = 0xE0 then
      match rest with
      | c1 :: c2 :: r =>
        (decide (0xA0 ≤ c1 ∧ c1 ≤ 0xBF)) && isUtf8Cont c2 && utf8Valid r
      | _ => false
    else if (0xE1 ≤ b ∧ b ≤ 0xEC) ∨ b = 0xEE ∨ b = 0xEF then
      match rest with
      | c1 :: c2 :: r => isUtf8Cont c1 && isUtf8Cont c2 && utf8Valid r
      | _ => false
    else if b = 0xED then
      match rest with
      | c1 :: c2 :: r =>
        (decide (0x80 ≤ c1 ∧ c1 ≤ 0x9F)) && isUtf8Cont c2 && utf8Valid r
      | _ => false
    else if b = 0xF0 then
      match rest with
      | c1 :: c2 :: c3 :: r =>
        (decide (0x90 ≤ c1 ∧ c1 ≤ 0xBF)) && isUtf8Cont c2 && isUtf8Cont c3 &&
          utf8Valid r
      | _ => false
    else if 0xF1 ≤ b ∧ b ≤ 0xF3 then
      match rest with
      | c1 :: c2 :: c3 :: r =>
        isUtf8Cont c1 && isUtf8Cont c2 && isUtf8Cont c3 && utf8Valid r
      | _ => false
    else if b = 0xF4 then
      match rest with
      | c1 :: c2 :: c3 :: r =>
        (decide (0x80 ≤ c1 ∧ c1 ≤ 0x8F)) && isUtf8Cont c2 && isUtf8Cont c3 &&
          utf8Valid r
      | _ => false
    else false

/-- Model of `decode_decimal`: `mantissa × 10^exponent` (exact). -/
def decodeDecimal (m e : ℤ) : ℚ := (m : ℚ) * (10 : ℚ) ^ e

/-! ## Eager SBE message decoders (`src/exchanges/binance/sbe/messages.rs`) -/

/-- Model of the `Trade` record. -/
structure Trade where
  id : ℤ
  price : ℚ
  qty : ℚ
  is_buyer_maker : Bool
deriving Repr, DecidableEq

/-- Model of `TradeStreamEvent`; timestamps are kept as the raw
microsecond counts and the symbol as its raw (UTF-8-validated)
bytes. -/
structure TradeStreamEvent where
  event_time_micros : ℤ
  transact_time_micros : ℤ
  trades : List Trade
  symbol : List ℕ
deriving Repr, DecidableEq

/-- Model of `TradeStreamEvent::decode` (`messages.rs` lines 68–168,
identical in `events/trade.rs`), split into its three phases below:
fixed header fields, a `(u16 block_length, u32 num_in_group)` group
header, a skip of `(n − 1) × block_length` bytes to the last group
entry, the 25 mandatory entry bytes, an optional trailing
`is_best_match` byte, padding up to the declared block length, and a
`u8`-length-prefixed UTF-8 symbol.  (For `block_length < 25` the
source's `block_length - bytes_so_far` would underflow; this model
uses saturating subtraction and no claim exercises that region.)
This is the shared symbol-reading tail. -/
def tradeReadSymbol (data : List ℕ) (et tt : ℤ) (trades : List Trade)
    (pos : ℕ) : Option TradeStreamEvent := do
  if data.length - pos < 1 then none
  else do
    let slen ← readU8At data pos
    let sym ← readBytesAt data (pos + 1) slen
    if utf8Valid sym then some ⟨et, tt, trades, sym⟩ else none

/-- The last-entry parsing phase of `TradeStreamEvent::decode`: check
there is a full block, read the 25 mandatory bytes, consume the
optional `is_best_match` byte, pad to the declared block length, then
read the symbol. -/
def tradeReadLastEntry (data : List ℕ) (et tt pexp qexp : ℤ) (bl pos1 : ℕ) :
    Option TradeStreamEvent := do
  if data.length - pos1 < bl then none
  else do
    let tid ← readI64At data pos1
    let pm ← readI64At data (pos1 + 8)
    let qm ← readI64At data (pos1 + 16)
    let ibm ← readU8At data (pos1 + 24)
    let pos2 ←
      if 1 ≤ bl - 25 then (readU8At data (pos1 + 25)).map fun _ => pos1 + 26
      else some (pos1 + 25)
    let pos3 := if pos2 - pos1 < bl then pos1 + bl else pos2
    tradeReadSymbol data et tt
      [⟨tid, decodeDecimal pm pexp, decodeDecimal qm qexp, decide (ibm ≠ 0)⟩]
      pos3

/-- Header phase of `TradeStreamEvent::decode`: fixed fields, group
header, skip to the last entry when `n > 1`, then the entry and symbol
phases; with no entries the cursor stays at 24 for the symbol. -/
def tradeStreamDecode (data : List ℕ) : Option TradeStreamEvent := do
  let et ← readI64At data 0
  let tt ← readI64At data 8
  let pexp ← readI8At data 16
  let qexp ← readI8At data 17
  let bl ← readU16At data 18
  let n ← readU32At data 20
  if 0 < n then do
    let pos1 ←
      if 1 < n then
        if 24 + (n - 1) * bl ≤ data.length then some (24 + (n - 1) * bl)
        else none
      else some 24
    tradeReadLastEntry data et tt pexp qexp bl pos1
  else tradeReadSymbol data et tt [] 24

/-- Model of `BestBidAskStreamEvent`. -/
structure BestBidAskStreamEvent where
  event_time_micros : ℤ
  book_update_id : ℤ
  bid_price : ℚ
  bid_qty : ℚ
  ask_price : ℚ
  ask_qty : ℚ
  symbol : List ℕ
deriving Repr, DecidableEq

/-- Model of `BestBidAskStreamEvent::decode` (`messages.rs`
lines 203–234). -/
def bestBidAskDecode (data : List ℕ) : Option BestBidAskStreamEvent := do
  let et ← readI64At data 0
  let buid ← readI64At data 8
  let pexp ← readI8At data 16
  let qexp ← readI8At data 17
  let bpm ← readI64At data 18
  let bqm ← readI64At data 26
  let apm ← readI64At data 34
  let aqm ← readI64At data 42
  let slen ← readU8At data 50
  let sym ← readBytesAt data 51 slen
  if utf8Valid sym then
    some ⟨et, buid, decodeDecimal bpm pexp, decodeDecimal bqm qexp,
      decodeDecimal apm pexp, decodeDecimal aqm qexp, sym⟩
  else none

/-- Model of the eager `DepthLevel` record. -/
structure DepthLevel where
  price : ℚ
  qty : ℚ
deriving Repr, DecidableEq

/-- Model of the per-level loop of the eager depth decoders: each
iteration is one `DepthLevel::decode` (two `i64` reads, 16 bytes). -/
def parseDepthLevels (data : List ℕ) (pexp qexp : ℤ) :
    ℕ → ℕ → Option (List DepthLevel × ℕ)
  | 0, pos => some ([], pos)
  | c + 1, pos =>
    (readI64At data pos).bind fun pm =>
      (readI64At data (pos + 8)).bind fun qm =>
        (parseDepthLevels data pexp qexp c (pos + 16)).bind fun res =>
          some (⟨decodeDecimal pm pexp, decodeDecimal qm qexp⟩ :: res.1, res.2)

/-- Model of the eager `DepthSnapshotStreamEvent`. -/
structure DepthSnapshotStreamEvent where
  event_time_micros : ℤ
  book_update_id : ℤ
  bids : List DepthLevel
  asks : List DepthLevel
  symbol : List ℕ
deriving Repr, DecidableEq

/-- Model of the eager `DepthSnapshotStreamEvent::decode`
(`messages.rs` lines 285–324): the group block lengths are read but
ignored — levels are materialized at a fixed 16-byte stride. -/
def depthSnapshotDecode (data : List ℕ) : Option DepthSnapshotStreamEvent := do
  let et ← readI64At data 0
  let buid ← readI64At data 8
  let pexp ← readI8At data 16
  let qexp ← readI8At data 17
  let _bidsBlockLength ← readU16At data 18
  let nb ← readU16At data 20
  let bidsRes ← parseDepthLevels data pexp qexp nb 22
  let _asksBlockLength ← readU16At data bidsRes.2
  let na ← readU16At data (bidsRes.2 + 2)
  let asksRes ← parseDepthLevels data pexp qexp na (bidsRes.2 + 4)
  let slen ← readU8At data asksRes.2
  let sym ← readBytesAt data (asksRes.2 + 1) slen
  if utf8Valid sym then some ⟨et, buid, bidsRes.1, asksRes.1, sym⟩ else none

/-- Model of `DepthDiffStreamEvent`. -/
structure DepthDiffStreamEvent where
  event_time_micros : ℤ
  first_book_update_id : ℤ
  last_book_update_id : ℤ
  bids : List DepthLevel
  asks : List DepthLevel
  symbol : List ℕ
deriving Repr, DecidableEq

/-- Model of `DepthDiffStreamEvent::decode` (`messages.rs`
lines 361–404). -/
def depthDiffDecode (data : List ℕ) : Option DepthDiffStreamEvent := do
  let et ← readI64At data 0
  let fbuid ← readI64At data 8
  let lbuid ← readI64At data 16
  let pexp ← readI8At data 24
  let qexp ← readI8At data 25
  let _bidsBlockLength ← readU16At data 26
  let nb ← readU16At data 28
  let bidsRes ← parseDepthLevels data pexp qexp nb 30
  let _asksBlockLength ← readU16At data bidsRes.2
  let na ← readU16At data (bidsRes.2 + 2)
  let asksRes ← parseDepthLevels data pexp qexp na (bidsRes.2 + 4)
  let slen ← readU8At data asksRes.2
  let sym ← readBytesAt data (asksRes.2 + 1) slen
  if utf8Valid sym then some ⟨et, fbuid, lbuid, bidsRes.1, asksRes.1, sym⟩
  else none

/-! ## Frame header and decoder dispatch
(`src/exchanges/binance/sbe/types.rs`, `decoder.rs`) -/

/-- Template id of `trade_stream`. -/
def TEMPLATE_TRADES_STREAM : ℕ := 10000

/-- Template id of `best_bid_ask_stream`. -/
def TEMPLATE_BEST_BID_ASK_STREAM : ℕ := 10001

/-- Template id of `depth_snapshot_stream`. -/
def TEMPLATE_DEPTH_SNAPSHOT_STREAM : ℕ := 10002

/-- Template id of `depth_diff_stream`. -/
def TEMPLATE_DEPTH_DIFF_STREAM : ℕ := 10003

/-- Model of `MessageHeader`: four little-endian `u16` fields. -/
structure MessageHeader where
  block_length : ℕ
  template_id : ℕ
  schema_id : ℕ
  version : ℕ
deriving Repr, DecidableEq

/-- Model of `MessageHeader::decode`: reads the fixed 8-byte prefix. -/
def messageHeaderDecode (data : List ℕ) : Option MessageHeader := do
  let bl ← readU16At data 0
  let tid ← readU16At data 2
  let sid ← readU16At data 4
  let ver ← readU16At data 6
  some ⟨bl, tid, sid, ver⟩

/-- Model of the `SbeMessage` sum type. -/
inductive SbeMessage where
  | trade (e : TradeStreamEvent)
  | bestBidAsk (e : BestBidAskStreamEvent)
  | depthDiff (e : DepthDiffStreamEvent)
  | depthSnapshot (e : DepthSnapshotStreamEvent)
deriving Repr, DecidableEq

/-- Model of `SbeDecoder::decode` (`decoder.rs` lines 26–95): decode
the header, dispatch on the template id over the body past the 8-byte
header, and fail on an unknown template id.  (The schema-id check only
logs.) -/
def sbeDecode (data : List ℕ) : Option SbeMessage := do
  let header ← messageHeaderDecode data
  let body := data.drop 8
  if header.template_id = TEMPLATE_TRADES_STREAM then
    (tradeStreamDecode body).map SbeMessage.trade
  else if header.template_id = TEMPLATE_BEST_BID_ASK_STREAM then
    (bestBidAskDecode body).map SbeMessage.bestBidAsk
  else if header.template_id = TEMPLATE_DEPTH_DIFF_STREAM then
    (depthDiffDecode body).map SbeMessage.depthDiff
  else if header.template_id = TEMPLATE_DEPTH_SNAPSHOT_STREAM then
    (depthSnapshotDecode body).map SbeMessage.depthSnapshot
  else none

/-! ## The SBE read loop of `BinanceClient` (`src/exchanges/binance/client.rs`) -/

/-- One incoming WebSocket item as seen by `recv_raw`. -/
inductive WsIncoming where
  | binary (data : List ℕ)
  | text (s : String)
  | ping (payload : List ℕ)
  | pong
  | close
  | frame
  | streamEnd
deriving Repr, DecidableEq

/-- Outcome of one `recv_sbe` call: `Ok(Some(msg))`, `Ok(None)`
(ping answered / ignorable frame) or `Err(..)`. -/
inductive RecvSbeOutcome where
  | msg (m : SbeMessage)
  | skip
  | fail
deriving Repr, DecidableEq

/-- Model of `BinanceClient::recv_sbe` (lines 356–410): a binary frame
is SBE-decoded and a decode failure propagates as `Err` via `?`;
ping/pong/text/raw frames yield `Ok(None)`; close and stream end yield
`Err`. -/
def recvSbe (m : WsIncoming) : RecvSbeOutcome :=
  match m with
  | .binary data =>
    match sbeDecode data with
    | some msg => .msg msg
    | none => .fail
  | .ping _ => .skip
  | .pong => .skip
  | .text _ => .skip
  | .frame => .skip
  | .close => .fail
  | .streamEnd => .fail

/-- What one iteration of the SBE read loop does with the receive
outcome. -/
inductive LoopStep where
  | next (forwarded : Option SbeMessage)
  | halt
deriving Repr, DecidableEq

/-- Model of one iteration of the SBE branch of `BinanceClient::run`
(lines 415–436): `Ok(Some(msg))` forwards the message and continues,
`Ok(None)` continues, and `Err(e)` logs and **returns the error**,
terminating the loop and the task. -/
def runStepSbe (m : WsIncoming) : LoopStep :=
  match recvSbe m with
  | .msg msg => .next (some msg)
  | .skip => .next none
  | .fail => .halt

/-! ## C2 — per-message SBE decode errors -/

/-- **C2 counterexample.** The 8-byte frame with unknown template id
99 fails decoding, and the read-loop step on it terminates the task
rather than continuing: a per-message decode error does end the CEX
reader. -/
theorem decode_error_terminates_counterexample :
    sbeDecode [0, 0, 99, 0, 1, 0, 0, 0] = none ∧
      runStepSbe (.binary [0, 0, 99, 0, 1, 0, 0, 0]) = .halt ∧
      ∀ fwd, runStepSbe (.binary [0, 0, 99, 0, 1, 0, 0, 0]) ≠ .next fwd := by
  refine ⟨by decide, by decide, fun fwd => ?_⟩
  intro h
  rw [show runStepSbe (.binary [0, 0, 99, 0, 1, 0, 0, 0]) = .halt
    from by decide] at h
  exact LoopStep.noConfusion h

/-- **C2 amended.** In the SBE branch of `BinanceClient::run`, a frame
that fails SBE decoding (including an unknown template id) is logged
and terminates the read loop — the error propagates out of the task;
only successfully decoded frames are forwarded, and only
ping/pong/unexpected-text/raw frames are dropped with the loop
continuing. -/
theorem decode_error_terminates_loop (data : List ℕ) :
    (sbeDecode data = none → runStepSbe (.binary data) = .halt) ∧
      (∀ msg, sbeDecode data = some msg →
        runStepSbe (.binary data) = .next (some msg)) ∧
      (∀ payload, runStepSbe (.ping payload) = .next none) := by
  refine ⟨fun h => ?_, fun msg h => ?_, fun payload => rfl⟩
  · simp [runStepSbe, recvSbe, h]
  · simp [runStepSbe, recvSbe, h]

/-- Witness for C2 (amended): the unknown-template frame halts the
loop and a ping continues it. -/
theorem decode_error_terminates_loop_witness :
    runStepSbe (.binary [0, 0, 99, 0, 1, 0, 0, 0]) = .halt ∧
      runStepSbe (.ping [1, 2]) = .next none :=
  ⟨(decode_error_terminates_loop [0, 0, 99, 0, 1, 0, 0, 0]).1 (by decide),
    (decode_error_terminates_loop []).2.2 [1, 2]⟩

/-! ## Read-locality toolbox for byte-layout proofs -/

/-- Little-endian encoding of a `u16` value. -/
def u16le (v : ℕ) : List ℕ := [v % 256, v / 256]

/-- Little-endian encoding of a `u32` value. -/
def u32le (v : ℕ) : List ℕ :=
  [v % 256, v / 256 % 256, v / 2 ^ 16 % 256, v / 2 ^ 24]

lemma leNat_singleton (b : ℕ) : leNat [b] = b := by
  simp [leNat]

lemma leNat_u16le (v : ℕ) : leNat (u16le v) = v := by
  simp only [u16le, leNat, List.foldr]
  omega

lemma leNat_u32le (v : ℕ) : leNat (u32le v) = v := by
  simp only [u32le, leNat, List.foldr]
  omega

/-- Reading past a known prefix reads the suffix. -/
lemma readBytesAt_shift (x data : List ℕ) (pos n : ℕ) :
    readBytesAt (x ++ data) (x.length + pos) n = readBytesAt data pos n := by
  unfold readBytesAt
  by_cases h : pos + n ≤ data.length
  · rw [if_pos (by simp; omega), if_pos h]
    rw [List.drop_append]
  · rw [if_neg (by simp; omega), if_neg h]

/-- Reading entirely inside a known prefix ignores the suffix. -/
lemma readBytesAt_left (xs rest : List ℕ) (pos n : ℕ)
    (h : pos + n ≤ xs.length) :
    readBytesAt (xs ++ rest) pos n = readBytesAt xs pos n := by
  unfold readBytesAt
  rw [if_pos (by simp; omega), if_pos h]
  rw [List.drop_append_of_le_length (by omega),
    List.take_append_of_le_length (by simp; omega)]

/-- A read that is in range returns the slice. -/
lemma readBytesAt_take (data : List ℕ) (pos n : ℕ)
    (h : pos + n ≤ data.length) :
    readBytesAt data pos n = some ((data.drop pos).take n) :=
  if_pos h

/-- A positioned read inside one known segment of a buffer. -/
lemma readBytesAt_inner (pre xs rest : List ℕ) (pos off n : ℕ)
    (hpos : pre.length = pos) (hin : off + n ≤ xs.length) :
    readBytesAt (pre ++ (xs ++ rest)) (pos + off) n =
      some ((xs.drop off).take n) := by
  subst hpos
  rw [readBytesAt_shift, readBytesAt_left _ _ _ _ hin, readBytesAt_take _ _ _ hin]

/-- A positioned read of one whole segment of a buffer. -/
lemma readBytesAt_at (pre xs rest : List ℕ) (pos n : ℕ)
    (hpos : pre.length = pos) (hn : xs.length = n) :
    readBytesAt (pre ++ (xs ++ rest)) pos n = some xs := by
  have h := readBytesAt_inner pre xs rest pos 0 n hpos (by omega)
  rw [Nat.add_zero] at h
  rw [h, List.drop_zero, List.take_of_length_le (by omega)]

/-! ## C7 — trade decoding exposes only the last group entry -/

/-- Modelled from the spec: "the decoder … parses the final entry" —
the trade read from the raw bytes of one group entry (id at offset 0,
price mantissa at 8, quantity mantissa at 16, aggressor flag at
24). -/
def lastEntryTrade (entry : List ℕ) (pexp qexp : ℤ) : Trade :=
  ⟨toI64 (leNat (entry.take 8)),
    decodeDecimal (toI64 (leNat ((entry.drop 8).take 8))) pexp,
    decodeDecimal (toI64 (leNat ((entry.drop 16).take 8))) qexp,
    decide (leNat ((entry.drop 24).take 1) ≠ 0)⟩

set_option maxHeartbeats 800000 in
/-- **C7.** For a trade frame body whose repeating group carries
`n ≥ 2` entries of the header-declared stride `bl ≥ 25` — i.e. whose
byte layout is the 24-byte fixed prefix, then `(n − 1) × bl` bytes of
earlier entries, then the final `bl`-byte entry, then the symbol —
decoding skips the `(n − 1) × bl` bytes, and the decoded trades list
is exactly the one trade parsed from the final entry. -/
theorem trade_decode_parses_last_entry
    (t1 t2 front lastE sym : List ℕ) (pe qe bl n : ℕ)
    (h1 : t1.length = 8) (h2 : t2.length = 8)
    (hfront : front.length = (n - 1) * bl)
    (hlast : lastE.length = bl)
    (hbl25 : 25 ≤ bl) (hn2 : 2 ≤ n)
    (hsym : utf8Valid sym = true) :
    tradeStreamDecode
        (t1 ++ t2 ++ [pe] ++ [qe] ++ u16le bl ++ u32le n ++ front ++ lastE ++
          sym.length :: sym) =
      some ⟨toI64 (leNat t1), toI64 (leNat t2),
        [lastEntryTrade lastE (toI8 pe) (toI8 qe)], sym⟩ := by
  set D := t1 ++ t2 ++ [pe] ++ [qe] ++ u16le bl ++ u32le n ++ front ++ lastE ++
    sym.length :: sym with hDdef
  have hu16 : (u16le bl).length = 2 := by simp [u16le]
  have hu32 : (u32le n).length = 4 := by simp [u32le]
  have hDlen : D.length = 24 + (n - 1) * bl + (bl + (1 + sym.length)) := by
    simp [hDdef, h1, h2, hu16, hu32, hfront, hlast]
    omega
  -- the eight shape views of the frame
  have hview0 : D = [] ++ (t1 ++ (t2 ++ [pe] ++ [qe] ++ u16le bl ++ u32le n ++
      front ++ lastE ++ sym.length :: sym)) := by
    simp [hDdef, List.append_assoc]
  have hview8 : D = t1 ++ (t2 ++ ([pe] ++ [qe] ++ u16le bl ++ u32le n ++
      front ++ lastE ++ sym.length :: sym)) := by
    simp [hDdef, List.append_assoc]
  have hview16 : D = (t1 ++ t2) ++ ([pe] ++ ([qe] ++ u16le bl ++ u32le n ++
      front ++ lastE ++ sym.length :: sym)) := by
    simp [hDdef, List.append_assoc]
  have hview17 : D = (t1 ++ t2 ++ [pe]) ++ ([qe] ++ (u16le bl ++ u32le n ++
      front ++ lastE ++ sym.length :: sym)) := by
    simp [hDdef, List.append_assoc]
  have hview18 : D = (t1 ++ t2 ++ [pe] ++ [qe]) ++ (u16le bl ++ (u32le n ++
      front ++ lastE ++ sym.length :: sym)) := by
    simp [hDdef, List.append_assoc]
  have hview20 : D = (t1 ++ t2 ++ [pe] ++ [qe] ++ u16le bl) ++ (u32le n ++
      (front ++ lastE ++ sym.length :: sym)) := by
    simp [hDdef, List.append_assoc]
  have hviewE : D = (t1 ++ t2 ++ [pe] ++ [qe] ++ u16le bl ++ u32le n ++ front)
      ++ (lastE ++ (sym.length :: sym)) := by
    simp [hDdef, List.append_assoc]
  have hviewS : D = (t1 ++ t2 ++ [pe] ++ [qe] ++ u16le bl ++ u32le n ++ front
      ++ lastE) ++ ([sym.length] ++ sym) := by
    simp [hDdef, List.append_assoc]
  have hviewSym : D = (t1 ++ t2 ++ [pe] ++ [qe] ++ u16le bl ++ u32le n ++ front
      ++ lastE ++ [sym.length]) ++ (sym ++ []) := by
    simp [hDdef, List.append_assoc]
  have hlenE : (t1 ++ t2 ++ [pe] ++ [qe] ++ u16le bl ++ u32le n ++
      front).length = 24 + (n - 1) * bl := by
    simp [h1, h2, hu16, hu32, hfront]
    omega
  have hlenS : (t1 ++ t2 ++ [pe] ++ [qe] ++ u16le bl ++ u32le n ++ front ++
      lastE).length = 24 + (n - 1) * bl + bl := by
    simp [h1, h2, hu16, hu32, hfront, hlast]
    omega
  have hlenSym : (t1 ++ t2 ++ [pe] ++ [qe] ++ u16le bl ++ u32le n ++ front ++
      lastE ++ [sym.length]).length = 24 + (n - 1) * bl + bl + 1 := by
    simp [h1, h2, hu16, hu32, hfront, hlast]
    omega
  -- the reads, in order
  have e0 : readI64At D 0 = some (toI64 (leNat t1)) := by
    unfold readI64At
    rw [hview0, readBytesAt_at _ t1 _ 0 8 (by simp) h1]
    rfl
  have e8 : readI64At D 8 = some (toI64 (leNat t2)) := by
    unfold readI64At
    rw [hview8, readBytesAt_at _ t2 _ 8 8 (by simp [h1]) h2]
    rfl
  have e16 : readI8At D 16 = some (toI8 pe) := by
    unfold readI8At
    rw [hview16, readBytesAt_at _ [pe] _ 16 1 (by simp [h1, h2]) rfl]
    simp [leNat_singleton]
  have e17 : readI8At D 17 = some (toI8 qe) := by
    unfold readI8At
    rw [hview17, readBytesAt_at _ [qe] _ 17 1 (by simp [h1, h2]) rfl]
    simp [leNat_singleton]
  have e18 : readU16At D 18 = some bl := by
    unfold readU16At
    rw [hview18, readBytesAt_at _ (u16le bl) _ 18 2 (by simp [h1, h2]) hu16]
    simp [leNat_u16le]
  have e20 : readU32At D 20 = some n := by
    unfold readU32At
    rw [hview20, readBytesAt_at _ (u32le n) _ 20 4 (by simp [h1, h2, hu16]) hu32]
    simp [leNat_u32le]
  have eId : readI64At D (24 + (n - 1) * bl) = some (toI64 (leNat (lastE.take 8))) := by
    unfold readI64At
    have h := readBytesAt_inner _ lastE (sym.length :: sym) (24 + (n - 1) * bl)
      0 8 hlenE (by omega)
    rw [Nat.add_zero] at h
    rw [hviewE, h]
    simp
  have ePm : readI64At D (24 + (n - 1) * bl + 8) =
      some (toI64 (leNat ((lastE.drop 8).take 8))) := by
    unfold readI64At
    rw [hviewE, readBytesAt_inner _ lastE (sym.length :: sym) _ 8 8 hlenE (by omega)]
    rfl
  have eQm : readI64At D (24 + (n - 1) * bl + 16) =
      some (toI64 (leNat ((lastE.drop 16).take 8))) := by
    unfold readI64At
    rw [hviewE, readBytesAt_inner _ lastE (sym.length :: sym) _ 16 8 hlenE (by omega)]
    rfl
  have eIbm : readU8At D (24 + (n - 1) * bl + 24) =
      some (leNat ((lastE.drop 24).take 1)) := by
    unfold readU8At
    rw [hviewE, readBytesAt_inner _ lastE (sym.length :: sym) _ 24 1 hlenE (by omega)]
    rfl
  have eSlen : readU8At D (24 + (n - 1) * bl + bl) = some sym.length := by
    unfold readU8At
    rw [hviewS, readBytesAt_at _ [sym.length] _ _ 1 hlenS rfl]
    simp [leNat_singleton]
  have eSym : readBytesAt D (24 + (n - 1) * bl + bl + 1) sym.length = some sym := by
    rw [hviewSym, readBytesAt_at _ sym _ _ sym.length hlenSym rfl]
  -- the shared symbol-reading tail evaluates on this layout
  clear_value D
  have hSym : ∀ (et tt : ℤ) (trades : List Trade),
      tradeReadSymbol D et tt trades (24 + (n - 1) * bl + bl) =
        some ⟨et, tt, trades, sym⟩ := by
    intro et tt trades
    unfold tradeReadSymbol
    rw [if_neg (by omega : ¬D.length - (24 + (n - 1) * bl + bl) < 1)]
    simp only [eSlen, Option.pure_def, Option.bind_eq_bind, Option.some_bind,
      eSym]
    rw [if_pos hsym]
  have hEntry : ∀ (et tt : ℤ),
      tradeReadLastEntry D et tt (toI8 pe) (toI8 qe) bl (24 + (n - 1) * bl) =
        some ⟨et, tt, [lastEntryTrade lastE (toI8 pe) (toI8 qe)], sym⟩ := by
    intro et tt
    unfold tradeReadLastEntry
    rw [if_neg (by omega : ¬D.length - (24 + (n - 1) * bl) < bl)]
    simp only [eId, ePm, eQm, eIbm, Option.pure_def, Option.bind_eq_bind,
      Option.some_bind]
    by_cases hbm : 1 ≤ bl - 25
    · -- a trailing `is_best_match` byte exists in the block
      have eXtra : readU8At D (24 + (n - 1) * bl + 25) =
          some (leNat ((lastE.drop 25).take 1)) := by
        unfold readU8At
        rw [hviewE, readBytesAt_inner _ lastE (sym.length :: sym) _ 25 1 hlenE
          (by omega)]
        rfl
      rw [if_pos hbm]
      simp only [eXtra, Option.map_some', Option.some_bind]
      rw [show (if 24 + (n - 1) * bl + 26 - (24 + (n - 1) * bl) < bl then
          24 + (n - 1) * bl + bl else 24 + (n - 1) * bl + 26) =
          24 + (n - 1) * bl + bl from by split <;> omega]
      exact hSym et tt _
    · rw [if_neg hbm]
      rw [show (if 24 + (n - 1) * bl + 25 - (24 + (n - 1) * bl) < bl then
          24 + (n - 1) * bl + bl else 24 + (n - 1) * bl + 25) =
          24 + (n - 1) * bl + bl from by split <;> omega]
      exact hSym et tt _
  unfold tradeStreamDecode
  simp only [e0, e8, e16, e17, e18, e20, Option.pure_def, Option.bind_eq_bind,
    Option.some_bind]
  rw [if_pos (by omega : 0 < n), if_pos (by omega : 1 < n),
    if_pos (by omega : 24 + (n - 1) * bl ≤ D.length)]
  exact hEntry _ _

/-- A concrete final 26-byte trade entry: id 9, price mantissa 7,
quantity mantissa 3, buyer-maker flag 1, one padding byte. -/
def c7LastEntry : List ℕ :=
  [9, 0, 0, 0, 0, 0, 0, 0, 7, 0, 0, 0, 0, 0, 0, 0, 3, 0, 0, 0, 0, 0, 0, 0,
    1, 0]

/-- Witness for C7: a frame with `num_trades = 4` and
`block_length = 26` — so `3 × 26 = 78` bytes of earlier entries are
skipped — decodes to exactly the one trade parsed from the final
entry. -/
theorem trade_decode_parses_last_entry_witness :
    tradeStreamDecode
        ([0, 0, 0, 0, 0, 0, 0, 0] ++ [0, 0, 0, 0, 0, 0, 0, 0] ++ [0] ++ [0] ++
          u16le 26 ++ u32le 4 ++ List.replicate 78 0 ++ c7LastEntry ++
          List.length ([] : List ℕ) :: ([] : List ℕ)) =
      some ⟨toI64 (leNat [0, 0, 0, 0, 0, 0, 0, 0]),
        toI64 (leNat [0, 0, 0, 0, 0, 0, 0, 0]),
        [lastEntryTrade c7LastEntry (toI8 0) (toI8 0)], []⟩ :=
  trade_decode_parses_last_entry _ _ _ _ _ _ _ _ _ rfl rfl (by decide)
    (by decide) (by decide) (by decide) (by decide)

/-! ## C8 — lazy depth view (`src/exchanges/binance/sbe/events/depth.rs`) -/

/-- Model of the lazy `DepthLevels` view: the raw group bytes, the
level count, the header-declared per-level stride, and the quantity
scale. -/
structure DepthLevels where
  data : List ℕ
  count : ℕ
  block_length : ℕ
  qty_scale : ℚ
deriving Repr, DecidableEq

/-- Model of `DepthLevels::new` (`events/depth.rs` lines 21–39): the
stride must be at least 16 bytes. -/
def DepthLevels.new (data : List ℕ) (count block_length : ℕ)
    (qty_scale : ℚ) : Option DepthLevels :=
  if block_length < 16 then none
  else some ⟨data, count, block_length, qty_scale⟩

/-- The loop of `DepthLevels::sum_qtys_top5_top10_all` (lines 41–71):
at iteration `idx`, the quantity mantissa sits 8 bytes into the block
at `offset`; a truncated buffer is an error; the offset advances by
the declared stride. -/
def sumQtysGo (data : List ℕ) (bl : ℕ) (scale : ℚ) :
    ℕ → ℕ → ℕ → ℚ → ℚ → ℚ → Option (ℚ × ℚ × ℚ)
  | 0, _, _, t5, t10, tall => some (t5, t10, tall)
  | c + 1, idx, offset, t5, t10, tall =>
    (readI64At data (offset + 8)).bind fun qm =>
      sumQtysGo data bl scale c (idx + 1) (offset + bl)
        (if idx < 5 then t5 + (qm : ℚ) * scale else t5)
        (if idx < 10 then t10 + (qm : ℚ) * scale else t10)
        (tall + (qm : ℚ) * scale)

/-- Model of `DepthLevels::sum_qtys_top5_top10_all`. -/
def DepthLevels.sum_qtys_top5_top10_all (v : DepthLevels) :
    Option (ℚ × ℚ × ℚ) :=
  sumQtysGo v.data v.block_length v.qty_scale v.count 0 0 0 0 0

/-- Model of the lazy `DepthSnapshotStreamEvent` of
`events/depth.rs`. -/
structure DepthSnapshotLazy where
  event_time_micros : ℤ
  book_update_id : ℤ
  bids : DepthLevels
  asks : DepthLevels
  symbol : List ℕ
deriving Repr, DecidableEq

/-- Model of the lazy `DepthSnapshotStreamEvent::decode`
(`events/depth.rs` lines 84–112): identical header parsing, but the
group bytes are sliced and wrapped in `DepthLevels` views instead of
being materialized. -/
def depthSnapshotLazyDecode (data : List ℕ) : Option DepthSnapshotLazy := do
  let et ← readI64At data 0
  let buid ← readI64At data 8
  let _priceExponent ← readI8At data 16
  let qexp ← readI8At data 17
  let bbl ← readU16At data 18
  let nb ← readU16At data 20
  let bidsData ← readBytesAt data 22 (bbl * nb)
  let bids ← DepthLevels.new bidsData nb bbl ((10 : ℚ) ^ qexp)
  let abl ← readU16At data (22 + bbl * nb)
  let na ← readU16At data (22 + bbl * nb + 2)
  let asksData ← readBytesAt data (22 + bbl * nb + 4) (abl * na)
  let asks ← DepthLevels.new asksData na abl ((10 : ℚ) ^ qexp)
  let slen ← readU8At data (22 + bbl * nb + 4 + abl * na)
  let sym ← readBytesAt data (22 + bbl * nb + 4 + abl * na + 1) slen
  if utf8Valid sym then some ⟨et, buid, bids, asks, sym⟩ else none

/-- The eager top-5 bid-quantity sum of `messages.rs::print_update`
(line 327): `bids.iter().take(5).map(|b| b.qty).sum()`. -/
def sumTop5Qty (lvls : List DepthLevel) : ℚ :=
  ((lvls.take 5).map DepthLevel.qty).sum

/-- The eager top-10 bid-quantity sum (`messages.rs` line 336). -/
def sumTop10Qty (lvls : List DepthLevel) : ℚ :=
  ((lvls.take 10).map DepthLevel.qty).sum

/-- The eager all-levels bid-quantity sum (`messages.rs` line 340). -/
def sumAllQty (lvls : List DepthLevel) : ℚ :=
  (lvls.map DepthLevel.qty).sum

/-- Reading inside a slice equals reading the original buffer at the
shifted position. -/
lemma readBytesAt_slice (data : List ℕ) (s L o m : ℕ)
    (hsL : s + L ≤ data.length) (hoL : o + m ≤ L) :
    readBytesAt ((data.drop s).take L) o m = readBytesAt data (s + o) m := by
  unfold readBytesAt
  have hlen : ((data.drop s).take L).length = L := by
    rw [List.length_take, List.length_drop]
    omega
  rw [if_pos (by omega), if_pos (by omega)]
  congr 1
  rw [List.drop_take, List.drop_drop, List.take_take,
    Nat.min_eq_left (by omega)]

/-- Core refinement: walking the group bytes lazily at stride 16 and
summing quantity mantissas equals eagerly parsing every level from the
same bytes and summing the parsed quantities, with the top-5 / top-10
windows tracked through the running index. -/
lemma sumGo_eq_eager (data : List ℕ) (pexp qexp : ℤ) (s L : ℕ)
    (hsL : s + L ≤ data.length) :
    ∀ (c o idx : ℕ) (t5 t10 tall : ℚ) (lvls : List DepthLevel) (pos' : ℕ),
      parseDepthLevels data pexp qexp c (s + o) = some (lvls, pos') →
      o + 16 * c ≤ L →
      sumQtysGo ((data.drop s).take L) 16 ((10 : ℚ) ^ qexp) c idx o t5 t10 tall =
        some (t5 + ((lvls.take (5 - idx)).map DepthLevel.qty).sum,
          t10 + ((lvls.take (10 - idx)).map DepthLevel.qty).sum,
          tall + (lvls.map DepthLevel.qty).sum) := by
  intro c
  induction c with
  | zero =>
    intro o idx t5 t10 tall lvls pos' hp hle
    simp only [parseDepthLevels, Option.some.injEq, Prod.mk.injEq] at hp
    obtain ⟨h1, _⟩ := hp
    subst h1
    simp [sumQtysGo]
  | succ c ih =>
    intro o idx t5 t10 tall lvls pos' hp hle
    simp only [parseDepthLevels, Option.bind_eq_some, Option.some.injEq,
      Prod.mk.injEq] at hp
    obtain ⟨pm, hpm, qm, hqm, res, hres, hlvls, hpos⟩ := hp
    simp only [sumQtysGo]
    have hread : readI64At ((data.drop s).take L) (o + 8) = some qm := by
      unfold readI64At at hqm ⊢
      rw [readBytesAt_slice data s L (o + 8) 8 hsL (by omega)]
      rw [show s + (o + 8) = s + o + 8 from by omega]
      exact hqm
    rw [hread, Option.some_bind]
    have hres' : parseDepthLevels data pexp qexp c (s + (o + 16)) =
        some (res.1, res.2) := by
      rw [show s + (o + 16) = s + o + 16 from by omega]
      exact hres
    rw [ih (o + 16) (idx + 1) _ _ _ res.1 res.2 hres' (by omega)]
    subst hlvls
    have e5 : (if idx < 5 then t5 + (qm : ℚ) * (10 : ℚ) ^ qexp else t5) +
        ((res.1.take (5 - (idx + 1))).map DepthLevel.qty).sum =
        t5 + (((DepthLevel.mk (decodeDecimal pm pexp) (decodeDecimal qm qexp)
          :: res.1).take (5 - idx)).map DepthLevel.qty).sum := by
      by_cases hidx : idx < 5
      · rw [if_pos hidx, show 5 - idx = (5 - (idx + 1)) + 1 from by omega,
          List.take_succ_cons, List.map_cons, List.sum_cons]
        show t5 + (qm : ℚ) * (10 : ℚ) ^ qexp + _ =
          t5 + (decodeDecimal qm qexp + _)
        rw [decodeDecimal]
        ring
      · rw [if_neg hidx, show 5 - idx = 0 from by omega,
          show 5 - (idx + 1) = 0 from by omega]
        rfl
    have e10 : (if idx < 10 then t10 + (qm : ℚ) * (10 : ℚ) ^ qexp else t10) +
        ((res.1.take (10 - (idx + 1))).map DepthLevel.qty).sum =
        t10 + (((DepthLevel.mk (decodeDecimal pm pexp) (decodeDecimal qm qexp)
          :: res.1).take (10 - idx)).map DepthLevel.qty).sum := by
      by_cases hidx : idx < 10
      · rw [if_pos hidx, show 10 - idx = (10 - (idx + 1)) + 1 from by omega,
          List.take_succ_cons, List.map_cons, List.sum_cons]
        show t10 + (qm : ℚ) * (10 : ℚ) ^ qexp + _ =
          t10 + (decodeDecimal qm qexp + _)
        rw [decodeDecimal]
        ring
      · rw [if_neg hidx, show 10 - idx = 0 from by omega,
          show 10 - (idx + 1) = 0 from by omega]
        rfl
    have eall : tall + (qm : ℚ) * (10 : ℚ) ^ qexp +
        ((res.1.map DepthLevel.qty).sum) =
        tall + (((DepthLevel.mk (decodeDecimal pm pexp) (decodeDecimal qm qexp)
          :: res.1).map DepthLevel.qty).sum) := by
      rw [List.map_cons, List.sum_cons]
      show _ = tall + (decodeDecimal qm qexp + _)
      rw [decodeDecimal]
      ring
    rw [e5, e10, eall]

set_option maxHeartbeats 800000 in
/-- **C8.** For every depth-snapshot body on which both the lazy
decoder (`events/depth.rs`) and the eager decoder (`messages.rs`)
succeed, and whose bid group uses the schema's 16-byte level stride,
the lazy view's top-5 / top-10 / all-level bid-quantity sums computed
directly over the raw bytes equal the sums of the eagerly parsed
levels' quantities. -/
theorem lazy_eager_depth_sums_agree (data : List ℕ)
    (evL : DepthSnapshotLazy) (evE : DepthSnapshotStreamEvent)
    (hL : depthSnapshotLazyDecode data = some evL)
    (hE : depthSnapshotDecode data = some evE)
    (hbl : evL.bids.block_length = 16) :
    evL.bids.sum_qtys_top5_top10_all =
      some (sumTop5Qty evE.bids, sumTop10Qty evE.bids, sumAllQty evE.bids) := by
  unfold depthSnapshotLazyDecode at hL
  simp only [Option.bind_eq_bind] at hL
  simp only [Option.bind_eq_some] at hL
  simp only [DepthLevels.new, Option.ite_none_left_eq_some,
    Option.ite_none_right_eq_some, Option.some.injEq] at hL
  obtain ⟨et, het, buid, hbuid, pexpL, hpexpL, qexpL, hqexpL, bbl, hbbl, nb, hnb,
    bidsData, hbidsData, bids, ⟨hbl16, hbidsEq⟩, abl, habl, na, hna, asksData,
    hasksData, asks, ⟨habl16, hasksEq⟩, slen, hslen, sym, hsymb, hutf, hevL⟩ := hL
  unfold depthSnapshotDecode at hE
  simp only [Option.bind_eq_bind] at hE
  simp only [Option.bind_eq_some] at hE
  simp only [Option.ite_none_right_eq_some, Option.some.injEq] at hE
  obtain ⟨etE, hetE, buidE, hbuidE, pexpE, hpexpE, qexpE, hqexpE, bblE, hbblE,
    nbE, hnbE, bidsRes, hparse, ablE, hablE, naE, hnaE, asksRes, hparseA,
    slenE, hslenE, symE, hsymE, hutfE, hevE⟩ := hE
  subst hevL
  subst hevE
  subst hbidsEq
  have hqq : qexpL = qexpE := by
    rw [hqexpL] at hqexpE
    exact Option.some.inj hqexpE
  have hnn : nb = nbE := by
    rw [hnb] at hnbE
    exact Option.some.inj hnbE
  have hbbl16 : bbl = 16 := hbl
  -- decompose the slice read of the bid-group bytes
  unfold readBytesAt at hbidsData
  simp only [Option.ite_none_right_eq_some, Option.some.injEq] at hbidsData
  obtain ⟨hbound, hslice⟩ := hbidsData
  rw [hbbl16, hnn] at hbound
  show sumQtysGo bidsData bbl ((10 : ℚ) ^ qexpL) nb 0 0 0 0 0 = _
  rw [← hslice, hbbl16, hqq, hnn]
  have := sumGo_eq_eager data pexpE qexpE 22 (16 * nbE) (by omega)
    nbE 0 0 0 0 0 bidsRes.1 bidsRes.2 hparse (by omega)
  rw [this]
  simp [sumTop5Qty, sumTop10Qty, sumAllQty]

/-- A concrete well-formed depth-snapshot body: zero timestamps and
exponents, an empty 16-byte-stride bid group, an empty ask group, an
empty symbol. -/
def c8Frame : List ℕ :=
  [0, 0, 0, 0, 0, 0, 0, 0, 0, 0, 0, 0, 0, 0, 0, 0, 0, 0, 16, 0, 0, 0, 16, 0,
    0, 0, 0]

/-- Witness for C8: both decoders succeed on `c8Frame` and the lazy
and eager bid sums agree there. -/
theorem lazy_eager_depth_sums_agree_witness :
    DepthLevels.sum_qtys_top5_top10_all
        (DepthLevels.mk [] 0 16 ((10 : ℚ) ^ (0 : ℤ))) =
      some (sumTop5Qty [], sumTop10Qty [], sumAllQty []) :=
  lazy_eager_depth_sums_agree c8Frame
    ⟨0, 0, DepthLevels.mk [] 0 16 ((10 : ℚ) ^ (0 : ℤ)),
      DepthLevels.mk [] 0 16 ((10 : ℚ) ^ (0 : ℤ)), []⟩
    ⟨0, 0, [], [], []⟩ rfl rfl rfl

end WhiteShark
